import Mathlib

set_option maxRecDepth 4000

/-!
Verification development for the airdrop reconciliation pipeline implemented in
`src/logic.py` (functions `format_decimal`, `parse_transfers_from_receipt`,
`fetch_transaction_receipt`, `get_token_holder_count`, `get_all_token_holders`,
`get_all_token_transfers`, `analyze_contract_activity`, `fetch_airdrop_data`).

Numbers.  The Python code computes with `decimal.Decimal` (exact decimal values)
and, inside `format_decimal`, with binary floating point (`float`).  Both kinds of
values are exact rationals; we embed them as unreduced integer fractions (`Dec`,
a numerator/denominator pair, denominator kept positive by construction) so that
every operation is plain integer arithmetic.  `dval` interprets a `Dec` as `ℚ`.
Caveats, stated once here: `Decimal` context precision (28 significant digits,
which can round a quotient such as `cur / rcv`) is not modelled — divisions are
exact; IEEE-754 overflow to infinity and the sign of negative zero are not
modelled (the pipeline's magnitudes stay far below the binary64 overflow
threshold, and a sign on a zero only affects a `-0` display).

Effects.  Network calls are modelled by provider functions (attempt/page index ↦
response); each fetcher returns its value together with the number of requests
issued and the sleeps performed (in tenths of a second: `time.sleep(5)` ↦ `50`,
`time.sleep(2)` ↦ `20`, `time.sleep(0.5)` ↦ `5`).  Python exceptions
(`SystemExit`, `IndexError`) are modelled with `Except`.
-/

/-- An exact rational value: numerator `n` over denominator `d`.  All
constructions in this file keep `d > 0`.  Used for both Python `Decimal` values
and (exactly representable) binary64 `float` values. -/
structure Dec where
  n : ℤ
  d : ℤ
deriving DecidableEq

/-- Interpretation of a `Dec` as a rational number. -/
def dval (x : Dec) : ℚ := (x.n : ℚ) / (x.d : ℚ)

/-- Addition of exact values. -/
def dadd (x y : Dec) : Dec := ⟨x.n * y.d + y.n * x.d, x.d * y.d⟩

/-- Subtraction of exact values (`cur - rcv` in the source). -/
def dsub (x y : Dec) : Dec := ⟨x.n * y.d - y.n * x.d, x.d * y.d⟩

/-- Multiplication of exact values. -/
def dmul (x y : Dec) : Dec := ⟨x.n * y.n, x.d * y.d⟩

/-- Division of exact values.  The divisor's sign is moved into the numerator so
the denominator stays positive; division by zero is never reached by the source
(it guards with `if rcv > 0`), we make it total with value 0. -/
def ddiv (x y : Dec) : Dec :=
  if y.n = 0 then ⟨0, 1⟩
  else if y.n < 0 then ⟨-(x.n * y.d), x.d * -y.n⟩
  else ⟨x.n * y.d, x.d * y.n⟩

/-- Value comparison `x < y` (valid for positive denominators). -/
def dltB (x y : Dec) : Bool := x.n * y.d < y.n * x.d

/-- Value comparison `x ≤ y` (valid for positive denominators). -/
def dleB (x y : Dec) : Bool := x.n * y.d ≤ y.n * x.d

/-- Fuelled binary logarithm: `log2fuel f n` is `⌊log₂ n⌋` whenever the
recursion terminates within `f` halvings (it needs only `⌊log₂ n⌋` of them). -/
def log2fuel : ℕ → ℕ → ℕ
  | 0, _ => 0
  | fuel+1, n => if 2 ≤ n then log2fuel fuel (n / 2) + 1 else 0

/-- `⌊log₂ n⌋` for `n ≥ 1`.  The fuel `4096` is exact for every `n < 2 ^ 4096`,
far beyond the binary64 overflow threshold `2 ^ 1024` relevant here. -/
def natLog2 (n : ℕ) : ℕ := log2fuel 4096 n

/-- Is `nn / dd < 2 ^ k` (for positive naturals `nn`, `dd`)? -/
def fracLtPow2 (nn dd : ℕ) (k : ℤ) : Bool :=
  if 0 ≤ k then nn < dd * 2 ^ k.toNat else nn * 2 ^ (-k).toNat < dd

/-- `⌊log₂ (nn / dd)⌋` for positive naturals, via the bit-length difference
followed by one comparison. -/
def fracExp (nn dd : ℕ) : ℤ :=
  let k : ℤ := (natLog2 nn : ℤ) - (natLog2 dd : ℤ)
  if fracLtPow2 nn dd k then k - 1 else k

/-- Round the positive fraction `nn / dd` to the nearest natural, ties to even. -/
def rneNat (nn dd : ℕ) : ℕ :=
  let f := nn / dd
  let r := nn % dd
  if 2 * r < dd then f
  else if dd < 2 * r then f + 1
  else if f % 2 = 0 then f else f + 1

/-- Round an exact value to the nearest IEEE-754 binary64 value (round to
nearest, ties to even; subnormals bottom out at `2 ^ (-1074)`).  Models CPython
`float(Decimal)` for inputs below the overflow threshold. -/
def floatOfDec (x : Dec) : Dec :=
  if x.n = 0 then ⟨0, 1⟩
  else
    let nn := x.n.natAbs
    let dd := x.d.natAbs
    let e := fracExp nn dd
    let uE : ℤ := max (e - 52) (-1074)
    let m : ℕ := if 0 ≤ uE then rneNat nn (dd * 2 ^ uE.toNat) else rneNat (nn * 2 ^ (-uE).toNat) dd
    let sgn : ℤ := if x.n < 0 then -1 else 1
    if 0 ≤ uE then ⟨sgn * m * 2 ^ uE.toNat, 1⟩ else ⟨sgn * m, 2 ^ (-uE).toNat⟩

/-- The value of `x` in hundredths, rounded half to even: the shared decimal
rounding step of `Decimal.quantize(Decimal(&quot;0.01&quot;))` (default rounding
ROUND_HALF_EVEN), of CPython `round(float, 2)`, and of `%.2f` formatting. -/
def hundredths (x : Dec) : ℤ :=
  let t : ℤ := 100 * x.n
  let f := Int.fdiv t x.d
  let r := Int.fmod t x.d
  if 2 * r < x.d then f
  else if x.d < 2 * r then f + 1
  else if f % 2 = 0 then f else f + 1

/-- CPython `round(f, 2)` on a float `f`: the nearest binary64 value to the
correctly rounded (half-even) two-decimal value of `f`. -/
def pyRound2 (x : Dec) : Dec := floatOfDec ⟨hundredths x, 100⟩

/-- Two decimal digits with a leading zero (`7` ↦ `&quot;07&quot;`). -/
def pad2 (m : ℕ) : String := if m < 10 then "0" ++ Nat.repr m else Nat.repr m

/-- `f&quot;x:.2f&quot;`-style fixed-point rendering with exactly two decimals,
correctly rounded half to even; the sign is the sign of `x` (so a negative value
rounding to zero renders as `-0.00`, as CPython does). -/
def fmt2f (x : Dec) : String :=
  let c := hundredths x
  (if x.n < 0 then "-" else "") ++ Nat.repr (c.natAbs / 100) ++ "." ++ pad2 (c.natAbs % 100)

/-- Python `s.rstrip(c)` for a single character `c`. -/
def rstrip (s : String) (c : Char) : String :=
  ⟨(s.data.reverse.dropWhile (fun x => x == c)).reverse⟩

/-- The source's `format_decimal` (src/logic.py lines 611-616): round through
binary floating point with `round(float(val), 2)`, render with `f&quot;:.2f&quot;`,
then strip trailing zeros and a trailing point, with `&quot;0&quot;` for an empty
result. -/
def format_decimal (val : Dec) : String :=
  let rounded := pyRound2 (floatOfDec val)
  let s := rstrip (rstrip (fmt2f rounded) '0') '.'
  if s = "" then "0" else s

/-- Modelled from the spec's words for comparison with `format_decimal` (spec
§4.6: formatting MUST be exact-decimal based: round the exact decimal value to
2 places under one consistent rule — half-even here — then drop trailing zeros
and a trailing decimal point).  No float conversion. -/
def formatDecimalExact (val : Dec) : String :=
  let s := rstrip (rstrip (fmt2f val) '0') '.'
  if s = "" then "0" else s

/-- C1: the claim says `format_decimal` is exact-decimal based, never binary
floating point, with no representational error at the 2-decimal boundary even
for blockchain-scale magnitudes.  The code (src/logic.py line 613) rounds via
`round(float(val), 2)`.  The spec's examples do hold (`12.5` and `12`), but at
the blockchain-scale input `123456789012345678.12` the float pathway returns
`&quot;123456789012345680&quot;` while exact-decimal 2-place rounding yields
`&quot;123456789012345678.12&quot;` — the claimed property fails on the code. -/
theorem c1_format_decimal_is_float_based :
    format_decimal ⟨125, 10⟩ = "12.5" ∧
    format_decimal ⟨12, 1⟩ = "12" ∧
    format_decimal ⟨12345678901234567812, 100⟩ = "123456789012345680" ∧
    formatDecimalExact ⟨12345678901234567812, 100⟩ = "123456789012345678.12" ∧
    format_decimal ⟨12345678901234567812, 100⟩ ≠ formatDecimalExact ⟨12345678901234567812, 100⟩ := by
  refine ⟨by decide, by decide, by decide, by decide, by decide⟩

/-- The tracked token contract address (module constant `TOKEN_CONTRACT`). -/
def TOKEN_CONTRACT : String := "0x01791f726b4103694969820be083196cc7c045ff"

/-- The ERC-20 Transfer event signature (module constant `TRANSFER_TOPIC`). -/
def TRANSFER_TOPIC : String := "0xddf252ad1be2c89b69c2b068fc378daa952ba7f163c4a11628f55a4df523b3ef"

/-- The token's decimal-places count (module constant `DECIMALS`). -/
def DECIMALS : ℕ := 18

/-- The retry budget of the HTTP helpers (module constant `MAX_RETRIES`). -/
def MAX_RETRIES : ℕ := 3

/-- Python `s.lower()` (ASCII suffices for the hex strings involved). -/
def strLower (s : String) : String := ⟨s.data.map Char.toLower⟩

/-- The value of one hexadecimal digit character, if it is one. -/
def hexDigitVal (c : Char) : Option ℕ :=
  if '0' ≤ c ∧ c ≤ '9' then some (c.toNat - '0'.toNat)
  else if 'a' ≤ c ∧ c ≤ 'f' then some (c.toNat - 'a'.toNat + 10)
  else if 'A' ≤ c ∧ c ≤ 'F' then some (c.toNat - 'A'.toNat + 10)
  else none

/-- Accumulate hex digits; any non-digit poisons the result. -/
def hexCore (cs : List Char) : Option ℕ :=
  cs.foldl (fun acc c =>
    match acc, hexDigitVal c with
    | some a, some v => some (16 * a + v)
    | _, _ => none) (some 0)

/-- Python `int(s, 16)` as used on receipt log data: an optional `0x`/`0X`
prefix followed by at least one hex digit; anything else raises, modelled as
`none`.  (Signs, underscores and surrounding whitespace, which Python would
also accept, never occur in log data and are not modelled.) -/
def hexVal (s : String) : Option ℕ :=
  let cs := match s.data with
    | '0' :: 'x' :: rest => rest
    | '0' :: 'X' :: rest => rest
    | cs => cs
  if cs.isEmpty then none else hexCore cs

/-- Python `s[-k:]`: the last `k` characters (the whole string if shorter). -/
def lastChars (k : ℕ) (s : String) : String := ⟨(s.data.reverse.take k).reverse⟩

/-- One entry of a receipt's `logs` array; `data` is `none` when the field is
missing (the source reads it with `lg.get(&quot;data&quot;, &quot;0x0&quot;)`). -/
structure LogEntry where
  address : String
  topics : List String
  data : Option String
deriving DecidableEq

/-- A transaction receipt, reduced to the field the parser reads. -/
structure Receipt where
  logs : List LogEntry
deriving DecidableEq

/-- The log-scanning loop of `parse_transfers_from_receipt` (src/logic.py lines
470-483).  Entries from other contracts, or without topics, or with a different
first topic are skipped; a kept entry reads `topics[2]` — an out-of-range read
is Python's `IndexError`, modelled as `.error ()` — and parses the data field
leniently (`int(lg.get(&quot;data&quot;,&quot;0x0&quot;), 16)`, malformed ↦ 0). -/
def parseGo (token_contract : String) : List LogEntry → Except Unit (List (String × ℕ))
  | [] => .ok []
  | lg :: rest =>
    if strLower lg.address ≠ strLower token_contract then parseGo token_contract rest
    else match lg.topics with
      | [] => parseGo token_contract rest
      | t0 :: _ =>
        if strLower t0 ≠ TRANSFER_TOPIC then parseGo token_contract rest
        else match lg.topics[2]? with
          | none => .error ()
          | some t2 =>
            let to_addr := "0x" ++ strLower (lastChars 40 t2)
            let amount := (hexVal (lg.data.getD "0x0")).getD 0
            match parseGo token_contract rest with
            | .error e => .error e
            | .ok tl => .ok ((to_addr, amount) :: tl)

/-- `parse_transfers_from_receipt(receipt, token_contract)`. -/
def parse_transfers_from_receipt (receipt : Receipt) (token_contract : String) :
    Except Unit (List (String × ℕ)) :=
  parseGo token_contract receipt.logs

/-- The standard-output trace of `parse_transfers_from_receipt`: the source
function contains no print statement at all, so the trace is empty for every
input (in particular for malformed amount data). -/
def parseTransfersStdout (_receipt : Receipt) (_token_contract : String) : List String := []

/-- A log entry the parser keeps: emitted by the tracked token contract
(case-insensitively) and carrying the Transfer signature as its first topic. -/
def keptEntry (lg : LogEntry) (token_contract : String) : Prop :=
  strLower lg.address = strLower token_contract ∧
  lg.topics ≠ [] ∧ strLower (lg.topics.headD "") = TRANSFER_TOPIC

instance (lg : LogEntry) (t : String) : Decidable (keptEntry lg t) := by
  unfold keptEntry; infer_instance

/-- A skipped entry (wrong contract, no topics, or wrong first topic) leaves the
scan unchanged. -/
theorem parseGo_skip (token : String) (lg : LogEntry) (rest : List LogEntry)
    (hk : ¬ keptEntry lg token) :
    parseGo token (lg :: rest) = parseGo token rest := by
  by_cases h1 : strLower lg.address = strLower token
  · cases htop : lg.topics with
    | nil => simp [parseGo, h1, htop]
    | cons t0 ts =>
      by_cases h2 : strLower t0 = TRANSFER_TOPIC
      · exact absurd ⟨h1, by simp [htop], by simpa [htop] using h2⟩ hk
      · simp [parseGo, h1, htop, h2]
  · simp [parseGo, h1]

/-- A kept entry with fewer than three topics raises (reads `topics[2]` out of
range). -/
theorem parseGo_bad_head (token : String) (lg : LogEntry) (rest : List LogEntry)
    (hk : keptEntry lg token) (hl : lg.topics.length < 3) :
    parseGo token (lg :: rest) = .error () := by
  obtain ⟨h1, h2, h3⟩ := hk
  cases htop : lg.topics with
  | nil => exact absurd htop h2
  | cons t0 ts =>
    have hget : (lg.topics)[2]? = none := by
      rw [List.getElem?_eq_none]
      omega
    rw [htop] at hget
    simp only [htop, List.headD_cons] at h3
    simp [parseGo, h1, htop, h3, hget]

/-- An erroring scan of the tail errors the whole scan, whatever the head. -/
theorem parseGo_cons_error (token : String) (lg : LogEntry) (rest : List LogEntry)
    (h : parseGo token rest = .error ()) :
    parseGo token (lg :: rest) = .error () := by
  by_cases hk : keptEntry lg token
  · by_cases hl : lg.topics.length < 3
    · exact parseGo_bad_head token lg rest hk hl
    · obtain ⟨h1, h2, h3⟩ := hk
      match htop : lg.topics with
      | [] => exact absurd htop h2
      | [t0] => rw [htop] at hl; simp at hl
      | [t0, t1] => rw [htop] at hl; simp at hl
      | t0 :: t1 :: t2 :: ts =>
        rw [htop] at h3
        simp only [List.headD_cons] at h3
        simp [parseGo, h1, htop, h3, h]
  · rw [parseGo_skip token lg rest hk]
    exact h

/-- A kept entry with at least three topics contributes one transfer pair in
front of the rest of the scan. -/
theorem parseGo_good_head (token : String) (lg : LogEntry) (rest : List LogEntry)
    (hk : keptEntry lg token) (hl : 3 ≤ lg.topics.length) :
    parseGo token (lg :: rest) =
      match parseGo token rest with
      | .error e => .error e
      | .ok tl =>
          .ok (("0x" ++ strLower (lastChars 40 (lg.topics.getD 2 "")),
                (hexVal (lg.data.getD "0x0")).getD 0) :: tl) := by
  obtain ⟨h1, h2, h3⟩ := hk
  match htop : lg.topics with
  | [] => exact absurd htop h2
  | [t0] => rw [htop] at hl; simp at hl
  | [t0, t1] => rw [htop] at hl; simp at hl
  | t0 :: t1 :: t2 :: ts =>
    rw [htop] at h3
    simp only [List.headD_cons] at h3
    simp [parseGo, h1, htop, h3]

/-- Any list of log entries containing a kept entry with fewer than three
topics makes the scan raise. -/
theorem parseGo_error_of_short (token : String) (L : List LogEntry)
    (h : ∃ lg ∈ L, keptEntry lg token ∧ lg.topics.length < 3) :
    parseGo token L = .error () := by
  induction L with
  | nil => obtain ⟨lg, hm, _⟩ := h; exact absurd hm (List.not_mem_nil lg)
  | cons a t ih =>
    obtain ⟨lg, hm, hk, hl⟩ := h
    rcases List.mem_cons.1 hm with rfl | hm2
    · exact parseGo_bad_head token lg t hk hl
    · exact parseGo_cons_error token a t (ih ⟨lg, hm2, hk, hl⟩)

/-- C10: a log entry emitted by the tracked token contract whose first topic is
the Transfer signature but whose topics list has fewer than three entries makes
`parse_transfers_from_receipt` raise an unguarded indexing error (it reads
`topics[2]` with no length check) instead of skipping the entry. -/
theorem c10_short_topics_raise (rc : Receipt) (token : String)
    (h : ∃ lg ∈ rc.logs, keptEntry lg token ∧ lg.topics.length < 3) :
    parse_transfers_from_receipt rc token = .error () :=
  parseGo_error_of_short token rc.logs h

/-- A receipt whose kept entries all have at least three topics with a
malformed-data entry: used as C10's and C9's concrete input. -/
def rcShortTopics : Receipt :=
  ⟨[⟨TOKEN_CONTRACT, [TRANSFER_TOPIC, "0xonly"], some "0x5"⟩]⟩

theorem c10_short_topics_raise_witness :
    parse_transfers_from_receipt rcShortTopics TOKEN_CONTRACT = .error () :=
  c10_short_topics_raise rcShortTopics TOKEN_CONTRACT (by decide)

/-- A scan over well-formed kept entries succeeds, and every kept entry with
malformed amount data appears in the result with amount zero. -/
theorem parseGo_ok_of_wellformed (token : String) :
    ∀ L : List LogEntry, (∀ lg ∈ L, keptEntry lg token → 3 ≤ lg.topics.length) →
    ∃ l, parseGo token L = .ok l ∧
      ∀ lg ∈ L, keptEntry lg token → hexVal (lg.data.getD "0x0") = none →
        ("0x" ++ strLower (lastChars 40 (lg.topics.getD 2 "")), 0) ∈ l := by
  intro L
  induction L with
  | nil => exact fun _ => ⟨[], rfl, by simp⟩
  | cons a t ih =>
    intro hlen
    obtain ⟨l, hok, hall⟩ := ih (fun lg hm hk => hlen lg (List.mem_cons_of_mem a hm) hk)
    by_cases hk : keptEntry a token
    · have h3 := hlen a (List.mem_cons_self a t) hk
      rw [parseGo_good_head token a t hk h3, hok]
      refine ⟨_, rfl, ?_⟩
      intro lg hm hk2 hhex
      rcases List.mem_cons.1 hm with rfl | hm2
      · rw [hhex]
        exact List.mem_cons_self _ _
      · exact List.mem_cons_of_mem _ (hall lg hm2 hk2 hhex)
    · rw [parseGo_skip token a t hk]
      refine ⟨l, hok, ?_⟩
      intro lg hm hk2 hhex
      rcases List.mem_cons.1 hm with rfl | hm2
      · exact absurd hk2 hk
      · exact hall lg hm2 hk2 hhex

/-- C9 (amended): a kept log entry with malformed amount data (non-hex or
missing `data`) yields a transfer pair with amount zero rather than failing the
receipt or the run; however, no anomaly is logged — the `except` branch of
`parse_transfers_from_receipt` is silent and the function prints nothing. -/
theorem c9_malformed_amount_zero_unlogged (rc : Receipt) (token : String)
    (hlen : ∀ lg ∈ rc.logs, keptEntry lg token → 3 ≤ lg.topics.length) :
    (∃ l, parse_transfers_from_receipt rc token = .ok l ∧
      ∀ lg ∈ rc.logs, keptEntry lg token → hexVal (lg.data.getD "0x0") = none →
        ("0x" ++ strLower (lastChars 40 (lg.topics.getD 2 "")), 0) ∈ l) ∧
    parseTransfersStdout rc token = [] :=
  ⟨parseGo_ok_of_wellformed token rc.logs hlen, rfl⟩

/-- A receipt with one well-formed Transfer log entry whose `data` field is not
hexadecimal: the concrete malformed-amount input. -/
def rcBadData : Receipt :=
  ⟨[⟨TOKEN_CONTRACT,
     [TRANSFER_TOPIC,
      "0x0000000000000000000000001111111111111111111111111111111111111111",
      "0x000000000000000000000000aabbccddeeff00112233445566778899aabbccdd"],
     some "0xzz"⟩]⟩

/-- C9's counterexample: at the concrete malformed-data receipt the parser
returns amount 0 (leniency holds) but its print trace is empty — the claim's
&quot;the anomaly is logged for visibility&quot; is false on the code. -/
theorem c9_counterexample :
    parse_transfers_from_receipt rcBadData TOKEN_CONTRACT =
      .ok [("0xaabbccddeeff00112233445566778899aabbccdd", 0)] ∧
    ¬ parseTransfersStdout rcBadData TOKEN_CONTRACT ≠ [] := by
  exact ⟨by rfl, by decide⟩

theorem c9_malformed_amount_zero_unlogged_witness :
    (∃ l, parse_transfers_from_receipt rcBadData TOKEN_CONTRACT = .ok l ∧
      ∀ lg ∈ rcBadData.logs, keptEntry lg TOKEN_CONTRACT →
        hexVal (lg.data.getD "0x0") = none →
        ("0x" ++ strLower (lastChars 40 (lg.topics.getD 2 "")), 0) ∈ l) ∧
    parseTransfersStdout rcBadData TOKEN_CONTRACT = [] :=
  c9_malformed_amount_zero_unlogged rcBadData TOKEN_CONTRACT (by decide)

/-- Result of one modelled fetch operation: the returned value, the number of
HTTP requests issued, and the sleeps performed, in tenths of a second, in
order. -/
structure FetchOut (α : Type) where
  val : α
  requests : ℕ
  sleeps : List ℕ
deriving DecidableEq

/-- Provider behaviour for one `eth_getTransactionReceipt` attempt. -/
inductive ReceiptResp where
  /-- HTTP 200 with a truthy `result` payload: the receipt. -/
  | ok (rc : Receipt)
  /-- HTTP 200 whose `result` is a string containing &quot;rate limit&quot;. -/
  | rateLimited
  /-- non-2xx HTTP status, or a falsy `result` payload. -/
  | empty
  /-- the request raised (timeout, connection failure). -/
  | netExc
deriving DecidableEq

/-- The retry loop of `fetch_transaction_receipt` (src/logic.py lines 448-463):
a rate-limit payload sleeps 5s and retries; a falsy result or HTTP error moves
to the next attempt without sleeping; an exception sleeps 2s; after
`MAX_RETRIES` attempts the function returns `{}` (modelled `none`). -/
def fetchReceiptGo (prov : ℕ → ReceiptResp) : ℕ → ℕ → FetchOut (Option Receipt)
  | 0, _ => ⟨none, 0, []⟩
  | rem+1, att =>
    match prov att with
    | .ok rc => ⟨some rc, 1, []⟩
    | .rateLimited =>
        let rest := fetchReceiptGo prov rem (att+1)
        ⟨rest.val, rest.requests + 1, 50 :: rest.sleeps⟩
    | .empty =>
        let rest := fetchReceiptGo prov rem (att+1)
        ⟨rest.val, rest.requests + 1, rest.sleeps⟩
    | .netExc =>
        let rest := fetchReceiptGo prov rem (att+1)
        ⟨rest.val, rest.requests + 1, 20 :: rest.sleeps⟩

/-- `fetch_transaction_receipt(txhash, apikey)`, abstracted over the provider's
per-attempt behaviour. -/
def fetch_transaction_receipt (prov : ℕ → ReceiptResp) : FetchOut (Option Receipt) :=
  fetchReceiptGo prov MAX_RETRIES 0

/-- Provider behaviour for one `tokenholdercount` attempt. -/
inductive CountResp where
  /-- status &quot;1&quot; with a truthy result parsing as an integer. -/
  | ok (n : ℕ)
  /-- status &quot;1&quot; with a truthy result that `int()` rejects. -/
  | badFormat
  /-- a result string containing &quot;rate limit&quot;. -/
  | rateLimited
  /-- any other API-level error. -/
  | apiErr
  /-- non-2xx HTTP status. -/
  | httpNotOk
  /-- the request raised. -/
  | netExc
deriving DecidableEq

/-- The retry loop of `get_token_holder_count` (src/logic.py lines 113-141):
rate limit sleeps 5s and retries; bad format and API errors return `None`
immediately; an HTTP error silently moves to the next attempt; an exception
sleeps 2s and retries except on the last attempt, which returns `None`. -/
def countGo (prov : ℕ → CountResp) : ℕ → ℕ → FetchOut (Option ℕ)
  | 0, _ => ⟨none, 0, []⟩
  | rem+1, att =>
    match prov att with
    | .ok n => ⟨some n, 1, []⟩
    | .badFormat => ⟨none, 1, []⟩
    | .apiErr => ⟨none, 1, []⟩
    | .rateLimited =>
        let rest := countGo prov rem (att+1)
        ⟨rest.val, rest.requests + 1, 50 :: rest.sleeps⟩
    | .httpNotOk =>
        let rest := countGo prov rem (att+1)
        ⟨rest.val, rest.requests + 1, rest.sleeps⟩
    | .netExc =>
        if rem = 0 then ⟨none, 1, []⟩
        else
          let rest := countGo prov rem (att+1)
          ⟨rest.val, rest.requests + 1, 20 :: rest.sleeps⟩

/-- `get_token_holder_count(contract_address, apikey)`, abstracted over the
provider's per-attempt behaviour. -/
def get_token_holder_count (prov : ℕ → CountResp) : FetchOut (Option ℕ) :=
  countGo prov MAX_RETRIES 0

/-- One record of the `tokenholderlist` endpoint. -/
structure HolderRec where
  /-- the `TokenHolderAddress` field. -/
  addr : String
  /-- the `TokenHolderQuantity` field (an integer wei amount). -/
  quantity : ℕ
deriving DecidableEq

/-- Provider behaviour for one `tokenholderlist` page request. -/
inductive PageResp where
  /-- status &quot;1&quot; with a list result. -/
  | ok (recs : List HolderRec)
  /-- a result containing &quot;rate limit&quot;. -/
  | rateLimited
  /-- any other API error, a malformed (non-list) result, an HTTP error, or a
  raised request: all take the same `break`. -/
  | failure
deriving DecidableEq

/-- The Python truthiness guard `if max_holders and len(acc) >= max_holders`:
`None` and `0` are both falsy. -/
def maxGuard (m : Option ℕ) (len : ℕ) : Bool :=
  match m with
  | none => false
  | some m => decide (m ≠ 0) && decide (m ≤ len)

/-- `acc[:max_holders]` under the same optional cap. -/
def listTrunc {α : Type} (m : Option ℕ) (l : List α) : List α :=
  match m with
  | none => l
  | some m => l.take m

/-- The pagination loop of `get_all_token_holders` (src/logic.py lines
172-228).  Each iteration issues one request; rate limit or any error breaks
with the data collected so far; an empty page breaks; reaching `max_holders`
truncates and breaks; a short page breaks; otherwise sleep 0.5s and continue
with the next page.  `fuel` bounds the unbounded `while True` (every theorem
assumes enough fuel). -/
def holdersGo (prov : ℕ → PageResp) (page_size : ℕ) (max_holders : Option ℕ) :
    ℕ → ℕ → List HolderRec → FetchOut (List HolderRec)
  | 0, _, acc => ⟨acc, 0, []⟩
  | fuel+1, page, acc =>
    match prov page with
    | .rateLimited => ⟨acc, 1, []⟩
    | .failure => ⟨acc, 1, []⟩
    | .ok holders =>
      if holders.isEmpty then ⟨acc, 1, []⟩
      else
        let acc2 := acc ++ holders
        if maxGuard max_holders acc2.length then ⟨listTrunc max_holders acc2, 1, []⟩
        else if holders.length < page_size then ⟨acc2, 1, []⟩
        else
          let rest := holdersGo prov page_size max_holders fuel (page+1) acc2
          ⟨rest.val, rest.requests + 1, 5 :: rest.sleeps⟩

/-- `get_all_token_holders(contract_address, apikey, max_holders, page_size)`,
abstracted over the provider's per-page behaviour. -/
def get_all_token_holders (prov : ℕ → PageResp) (page_size : ℕ)
    (max_holders : Option ℕ) (fuel : ℕ) : FetchOut (List HolderRec) :=
  holdersGo prov page_size max_holders fuel 1 []

/-- One record of the `tokentx` (token transfer history) endpoint, reduced to
the fields the activity aggregator reads. -/
structure TxRec where
  /-- the `from` field. -/
  fromAddr : String
  /-- the `functionName` field (decoded function signature). -/
  functionName : String
  /-- the `value` field (an integer wei amount). -/
  value : ℕ
deriving DecidableEq

/-- Provider behaviour for one `tokentx` page request. -/
inductive TxPageResp where
  /-- status &quot;1&quot; with a list result. -/
  | ok (recs : List TxRec)
  /-- a result containing &quot;rate limit&quot;. -/
  | rateLimited
  /-- status &quot;0&quot; with message &quot;No transactions found&quot;. -/
  | noneFound
  /-- any other API error, malformed result, HTTP error, or raised request. -/
  | failure
deriving DecidableEq

/-- The pagination loop of `get_all_token_transfers` (src/logic.py lines
278-347); structurally the loop of `get_all_token_holders` with the extra
&quot;no transactions found&quot; break. -/
def transfersGo (prov : ℕ → TxPageResp) (page_size : ℕ) (max_transactions : Option ℕ) :
    ℕ → ℕ → List TxRec → FetchOut (List TxRec)
  | 0, _, acc => ⟨acc, 0, []⟩
  | fuel+1, page, acc =>
    match prov page with
    | .rateLimited => ⟨acc, 1, []⟩
    | .noneFound => ⟨acc, 1, []⟩
    | .failure => ⟨acc, 1, []⟩
    | .ok transfers =>
      if transfers.length = 0 then ⟨acc, 1, []⟩
      else
        let acc2 := acc ++ transfers
        if maxGuard max_transactions acc2.length then ⟨listTrunc max_transactions acc2, 1, []⟩
        else if transfers.length < page_size then ⟨acc2, 1, []⟩
        else
          let rest := transfersGo prov page_size max_transactions fuel (page+1) acc2
          ⟨rest.val, rest.requests + 1, 5 :: rest.sleeps⟩

/-- `get_all_token_transfers(address, apikey, contract_address, ...)`,
abstracted over the provider's per-page behaviour (the address and token-filter
parameters are absorbed into the provider). -/
def get_all_token_transfers (prov : ℕ → TxPageResp) (page_size : ℕ)
    (max_transactions : Option ℕ) (fuel : ℕ) : FetchOut (List TxRec) :=
  transfersGo prov page_size max_transactions fuel 1 []

/-- Under a provider whose pages never shrink below `page_size`, the capped
holder fetch returns exactly the cap. -/
theorem holdersGo_capped (prov : ℕ → PageResp) (ps m : ℕ)
    (h : ∀ i, ∃ l, prov i = .ok l ∧ ps ≤ l.length) (hps : 0 < ps) :
    ∀ fuel page acc, acc.length < m → m ≤ acc.length + fuel * ps →
    (holdersGo prov ps (some m) fuel page acc).val.length = m := by
  intro fuel
  induction fuel with
  | zero => intro page acc h1 h2; exact absurd h2 (by omega)
  | succ f ih =>
    intro page acc h1 h2
    obtain ⟨l, hl, hlen⟩ := h page
    have hne : l.isEmpty = false := by
      cases l with
      | nil => simp at hlen; omega
      | cons a t => rfl
    have hsm : (f + 1) * ps = f * ps + ps := Nat.succ_mul f ps
    by_cases hm : m ≤ acc.length + l.length
    · have hg : maxGuard (some m) (acc.length + l.length) = true := by
        simp [maxGuard]
        omega
      simp [holdersGo, hl, hne, hg, listTrunc]
      omega
    · have hg : maxGuard (some m) (acc.length + l.length) = false := by
        simp [maxGuard]
        omega
      have hshort : ¬ l.length < ps := by omega
      simp [holdersGo, hl, hne, hg, hshort]
      refine ih (page + 1) (acc ++ l) ?ha ?hb
      · simp only [List.length_append]
        omega
      · simp only [List.length_append]
        omega

/-- C5: the stop conditions of `get_all_token_holders`, checked in order each
page: an empty or malformed page ends the fetch normally with the data so far
(one request, no error); three pages of sizes `ps`, `ps`, `k` with `0 < k < ps`
and no cap return the concatenation after exactly three requests; pages that
never shrink below `page_size` with a cap `m` stop at exactly `m` entries; and
the cap check precedes the short-page check, so a short first page longer than
the cap is still truncated to the cap. -/
theorem c5_pagination_stop_conditions :
    (∀ (prov : ℕ → PageResp) ps maxh fuel, prov 1 = .ok [] → 0 < fuel →
        get_all_token_holders prov ps maxh fuel = ⟨[], 1, []⟩) ∧
    (∀ (prov : ℕ → PageResp) ps maxh fuel, prov 1 = .failure → 0 < fuel →
        get_all_token_holders prov ps maxh fuel = ⟨[], 1, []⟩) ∧
    (∀ (prov : ℕ → PageResp) ps fuel p1 p2 p3,
        prov 1 = .ok p1 → prov 2 = .ok p2 → prov 3 = .ok p3 →
        p1.length = ps → p2.length = ps → 0 < p3.length → p3.length < ps →
        3 ≤ fuel →
        get_all_token_holders prov ps none fuel = ⟨p1 ++ p2 ++ p3, 3, [5, 5]⟩) ∧
    (∀ (prov : ℕ → PageResp) ps m fuel,
        (∀ i, ∃ l, prov i = .ok l ∧ ps ≤ l.length) → 0 < ps → 0 < m →
        m ≤ fuel * ps →
        (get_all_token_holders prov ps (some m) fuel).val.length = m) ∧
    (∀ (prov : ℕ → PageResp) ps m fuel p1, prov 1 = .ok p1 → p1 ≠ [] →
        0 < m → m ≤ p1.length → 0 < fuel →
        get_all_token_holders prov ps (some m) fuel = ⟨p1.take m, 1, []⟩) := by
  refine ⟨?s1, ?s2, ?s3, ?s4, ?s5⟩
  case s1 =>
    intro prov ps maxh fuel h1 hf
    obtain ⟨f, rfl⟩ : ∃ f, fuel = f + 1 := ⟨fuel - 1, by omega⟩
    simp [get_all_token_holders, holdersGo, h1]
  case s2 =>
    intro prov ps maxh fuel h1 hf
    obtain ⟨f, rfl⟩ : ∃ f, fuel = f + 1 := ⟨fuel - 1, by omega⟩
    simp [get_all_token_holders, holdersGo, h1]
  case s3 =>
    intro prov ps fuel p1 p2 p3 h1 h2 h3 hl1 hl2 hpos hlt hf
    obtain ⟨f, rfl⟩ : ∃ f, fuel = f + 3 := ⟨fuel - 3, by omega⟩
    have hps : 0 < ps := by omega
    have hne1 : p1.isEmpty = false := by
      cases p1 with
      | nil => simp at hl1; omega
      | cons a t => rfl
    have hne2 : p2.isEmpty = false := by
      cases p2 with
      | nil => simp at hl2; omega
      | cons a t => rfl
    have hne3 : p3.isEmpty = false := by
      cases p3 with
      | nil => simp at hpos
      | cons a t => rfl
    have hns1 : ¬ p1.length < ps := by omega
    have hns2 : ¬ p2.length < ps := by omega
    show holdersGo prov ps none (f + 1 + 1 + 1) 1 [] = ⟨p1 ++ p2 ++ p3, 3, [5, 5]⟩
    rw [holdersGo]
    simp only [h1, hne1, maxGuard, Bool.false_eq_true, if_false, hns1, List.nil_append]
    rw [holdersGo]
    simp only [h2, hne2, maxGuard, Bool.false_eq_true, if_false, hns2]
    rw [holdersGo]
    simp [h3, hne3, maxGuard, hlt, List.append_assoc]
  case s4 =>
    intro prov ps m fuel h hps hm hcap
    exact holdersGo_capped prov ps m h hps fuel 1 [] (by simpa using hm) (by simpa using hcap)
  case s5 =>
    intro prov ps m fuel p1 h1 hne hm hml hf
    obtain ⟨f, rfl⟩ : ∃ f, fuel = f + 1 := ⟨fuel - 1, by omega⟩
    have hne2 : p1.isEmpty = false := by
      cases p1 with
      | nil => exact absurd rfl hne
      | cons a t => rfl
    have hg : maxGuard (some m) p1.length = true := by
      simp [maxGuard]
      omega
    simp [get_all_token_holders, holdersGo, h1, hne2, hg, listTrunc]

/-- A provider returning pages of sizes 10000, 10000, 3421. -/
def provThreePages : ℕ → PageResp := fun page =>
  if page = 1 then .ok (List.replicate 10000 ⟨"0xa", 1⟩)
  else if page = 2 then .ok (List.replicate 10000 ⟨"0xb", 2⟩)
  else if page = 3 then .ok (List.replicate 3421 ⟨"0xc", 3⟩)
  else .ok []

/-- A provider whose pages never shrink: always 100 records. -/
def provFullPages : ℕ → PageResp := fun _ => .ok (List.replicate 100 ⟨"0xa", 1⟩)

/-- A provider answering every page with zero records. -/
def provEmptyPage : ℕ → PageResp := fun _ => .ok []

/-- A provider answering every page with a malformed/error response. -/
def provFailPage : ℕ → PageResp := fun _ => .failure

theorem c5_pagination_stop_conditions_witness :
    get_all_token_holders provEmptyPage 10000 none 5 = ⟨[], 1, []⟩ ∧
    get_all_token_holders provFailPage 10000 none 5 = ⟨[], 1, []⟩ ∧
    (get_all_token_holders provThreePages 10000 none 5).val.length = 23421 ∧
    (get_all_token_holders provThreePages 10000 none 5).requests = 3 ∧
    (get_all_token_holders provFullPages 100 (some 250) 10).val.length = 250 ∧
    get_all_token_holders provFullPages 100 (some 30) 10 =
      ⟨(List.replicate 100 (⟨"0xa", 1⟩ : HolderRec)).take 30, 1, []⟩ := by
  have h3 := c5_pagination_stop_conditions.2.2.1 provThreePages 10000 5
    (List.replicate 10000 ⟨"0xa", 1⟩) (List.replicate 10000 ⟨"0xb", 2⟩)
    (List.replicate 3421 ⟨"0xc", 3⟩) rfl rfl rfl (by rw [List.length_replicate])
    (by rw [List.length_replicate]) (by rw [List.length_replicate]; omega)
    (by rw [List.length_replicate]; omega) (by omega)
  refine ⟨c5_pagination_stop_conditions.1 provEmptyPage 10000 none 5 rfl (by omega),
          c5_pagination_stop_conditions.2.1 provFailPage 10000 none 5 rfl (by omega),
          ?w3, ?wr, ?w4, ?w5⟩
  case wr =>
    have hr : (get_all_token_holders provThreePages 10000 none 5).requests = 3 := by
      rw [h3]
    exact hr
  case w3 =>
    have hv : (get_all_token_holders provThreePages 10000 none 5).val =
        List.replicate 10000 ⟨"0xa", 1⟩ ++ List.replicate 10000 ⟨"0xb", 2⟩ ++
        List.replicate 3421 ⟨"0xc", 3⟩ := by
      rw [h3]
    rw [hv, List.length_append, List.length_append, List.length_replicate,
        List.length_replicate, List.length_replicate]
  case w4 =>
    refine c5_pagination_stop_conditions.2.2.2.1 provFullPages 100 250 10
      (fun i => ⟨List.replicate 100 ⟨"0xa", 1⟩, rfl, by rw [List.length_replicate]⟩)
      (by omega) (by omega) (by omega)
  case w5 =>
    refine c5_pagination_stop_conditions.2.2.2.2 provFullPages 100 30 10
      (List.replicate 100 ⟨"0xa", 1⟩) rfl ?ne (by omega) (by rw [List.length_replicate]; omega)
      (by omega)
    intro h
    have := congrArg List.length h
    rw [List.length_replicate] at this
    simp at this

/-- C7 (amended): on an explicit rate-limit signal, the receipt fetch and the
holder-count fetch sleep 5 seconds and retry within the same `MAX_RETRIES`
budget; the holder-list and transfer-history paginators instead stop
immediately on a rate-limit signal, returning the records collected so far,
with no sleep and no retry. -/
theorem c7_rate_limit_behaviour :
    (∀ (prov : ℕ → ReceiptResp) rc, prov 0 = .rateLimited → prov 1 = .ok rc →
        fetch_transaction_receipt prov = ⟨some rc, 2, [50]⟩) ∧
    (∀ (prov : ℕ → CountResp) n, prov 0 = .rateLimited → prov 1 = .ok n →
        get_token_holder_count prov = ⟨some n, 2, [50]⟩) ∧
    (∀ (prov : ℕ → PageResp) ps maxh fuel, prov 1 = .rateLimited → 0 < fuel →
        get_all_token_holders prov ps maxh fuel = ⟨[], 1, []⟩) ∧
    (∀ (prov : ℕ → TxPageResp) ps maxh fuel, prov 1 = .rateLimited → 0 < fuel →
        get_all_token_transfers prov ps maxh fuel = ⟨[], 1, []⟩) := by
  refine ⟨?r1, ?r2, ?r3, ?r4⟩
  case r1 =>
    intro prov rc h0 h1
    simp [fetch_transaction_receipt, MAX_RETRIES, fetchReceiptGo, h0, h1]
  case r2 =>
    intro prov n h0 h1
    simp [get_token_holder_count, MAX_RETRIES, countGo, h0, h1]
  case r3 =>
    intro prov ps maxh fuel h1 hf
    obtain ⟨f, rfl⟩ : ∃ f, fuel = f + 1 := ⟨fuel - 1, by omega⟩
    simp [get_all_token_holders, holdersGo, h1]
  case r4 =>
    intro prov ps maxh fuel h1 hf
    obtain ⟨f, rfl⟩ : ∃ f, fuel = f + 1 := ⟨fuel - 1, by omega⟩
    simp [get_all_token_transfers, transfersGo, h1]

/-- A receipt with no log entries. -/
def rcEmptyLogs : Receipt := ⟨[]⟩

/-- A receipt provider that is rate-limited on the first attempt only. -/
def provReceiptRL : ℕ → ReceiptResp := fun att =>
  if att = 0 then .rateLimited else .ok rcEmptyLogs

/-- A holder-count provider that is rate-limited on the first attempt only. -/
def provCountRL : ℕ → CountResp := fun att =>
  if att = 0 then .rateLimited else .ok 42

/-- A holder-list provider that is always rate-limited. -/
def provPagesRL : ℕ → PageResp := fun _ => .rateLimited

/-- A transfer-history provider that is always rate-limited. -/
def provTxRL : ℕ → TxPageResp := fun _ => .rateLimited

theorem c7_rate_limit_behaviour_witness :
    fetch_transaction_receipt provReceiptRL = ⟨some rcEmptyLogs, 2, [50]⟩ ∧
    get_token_holder_count provCountRL = ⟨some 42, 2, [50]⟩ ∧
    get_all_token_holders provPagesRL 10000 none 3 = ⟨[], 1, []⟩ ∧
    get_all_token_transfers provTxRL 10000 none 3 = ⟨[], 1, []⟩ :=
  ⟨c7_rate_limit_behaviour.1 provReceiptRL rcEmptyLogs rfl rfl,
   c7_rate_limit_behaviour.2.1 provCountRL 42 rfl rfl,
   c7_rate_limit_behaviour.2.2.1 provPagesRL 10000 none 3 rfl (by omega),
   c7_rate_limit_behaviour.2.2.2 provTxRL 10000 none 3 rfl (by omega)⟩

/-- C7's counterexample: a rate-limited first page makes `get_all_token_holders`
return after a single request with no sleep — it neither sleeps a longer
interval nor retries, so the claim is false for the holder-list pagination. -/
theorem c7_counterexample :
    ¬ (2 ≤ (get_all_token_holders provPagesRL 10000 none 3).requests ∨
       (get_all_token_holders provPagesRL 10000 none 3).sleeps ≠ []) := by
  decide

/-- Does the needle match at the head of the haystack? -/
def subAt : List Char → List Char → Bool
  | [], _ => true
  | _ :: _, [] => false
  | c :: cs, d :: ds => c == d && subAt cs ds

/-- Substring containment on character lists (Python's `in` on strings; the
empty needle is contained in everything). -/
def hasSubL : List Char → List Char → Bool
  | [], _ => true
  | _ :: _, [] => false
  | n, d :: ds => subAt n (d :: ds) || hasSubL n ds

/-- Python `needle in hay` for strings. -/
def strHasSub (needle hay : String) : Bool := hasSubL needle.data hay.data

/-- Association-list lookup (Python dict read). -/
def alookup {α : Type} : List (String × α) → String → Option α
  | [], _ => none
  | (k, v) :: t, k2 => if k = k2 then some v else alookup t k2

/-- Python `d[k] = d.get(k, 0) + v` on an insertion-ordered dict: add in place,
or append a fresh key at the end. -/
def bumpA : List (String × ℕ) → String → ℕ → List (String × ℕ)
  | [], k, v => [(k, v)]
  | (k2, v2) :: t, k, v => if k2 = k then (k2, v2 + v) :: t else (k2, v2) :: bumpA t k v

/-- Python `d[k] = v` on an insertion-ordered dict: overwrite in place, or
append a fresh key at the end. -/
def asetA : List (String × ℕ) → String → ℕ → List (String × ℕ)
  | [], k, v => [(k, v)]
  | (k2, v2) :: t, k, v => if k2 = k then (k2, v) :: t else (k2, v2) :: asetA t k v

/-- First-occurrence deduplication with an accumulator of keys already seen. -/
def dedupFirstGo (seen : List String) : List String → List String
  | [] => []
  | a :: t => if seen.contains a then dedupFirstGo seen t else a :: dedupFirstGo (a :: seen) t

/-- The distinct elements of a list in order of first occurrence: the key order
of a Python dict built by comprehension over the list. -/
def dedupFirst (l : List String) : List String := dedupFirstGo [] l

/-- One entry of the `contracts_config` dict: a category label and the function
name patterns (`DEFAULT_CONTRACTS_AND_FUNCTIONS` shape). -/
structure ContractCfg where
  category : String
  functions : List String
deriving DecidableEq

/-- The per-transfer qualification test of `analyze_contract_activity`
(src/logic.py lines 407-424): the record's `from` address, lowered, must be a
key of the accumulator (i.e. a lowered recipient address), and some configured
pattern must occur case-insensitively inside the decoded function name. -/
def txQualifies (actKeys : List (String × List (String × ℕ))) (functions : List String)
    (tx : TxRec) : Bool :=
  (alookup actKeys (strLower tx.fromAddr)).isSome &&
  functions.any (fun f => strHasSub (strLower f) (strLower tx.functionName))

/-- Credit one qualifying amount into `activity[from][category]` (src/logic.py
lines 427-430), initializing the bucket to zero on first touch.  The outer key
is known to exist (the membership guard ran first); on a missing outer key the
map is returned unchanged. -/
def bumpAct : List (String × List (String × ℕ)) → String → String → ℕ →
    List (String × List (String × ℕ))
  | [], _, _, _ => []
  | (a2, inner) :: t, a, c, v =>
      if a2 = a then (a2, bumpA inner c v) :: t else (a2, inner) :: bumpAct t a c v

/-- Process the fetched transfer list of one configured contract (the `for tx
in transfers` loop, src/logic.py lines 407-431). -/
def processTransfers (category : String) (functions : List String)
    (recs : List TxRec) (m : List (String × List (String × ℕ))) :
    List (String × List (String × ℕ)) :=
  recs.foldl (fun m tx =>
    if txQualifies m functions tx then bumpAct m (strLower tx.fromAddr) category tx.value
    else m) m

/-- The body of the per-contract loop of `analyze_contract_activity`
(src/logic.py lines 385-433): skip a misconfigured contract (empty category or
empty pattern list), otherwise fetch its transfer history and fold the
qualifying records into the accumulator, adding the requests made. -/
def analyzeStep (txProv : String → ℕ → TxPageResp) (fuel : ℕ)
    (st : List (String × List (String × ℕ)) × ℕ) (entry : String × ContractCfg) :
    List (String × List (String × ℕ)) × ℕ :=
  if entry.2.category = "" ∨ entry.2.functions = [] then st
  else
    let fo := get_all_token_transfers (txProv entry.1) 10000 none fuel
    (processTransfers entry.2.category entry.2.functions fo.val st.1, st.2 + fo.requests)

/-- `analyze_contract_activity(addresses, apikey, contracts_config,
token_contract)` (src/logic.py lines 350-435), abstracted over the
transfer-history provider (one per-page behaviour per configured contract
address; the token-contract filter is absorbed into the provider).  Returns the
accumulated `address → category → total` map together with the number of HTTP
requests issued; `analyzeStep` is the body of its per-contract loop. -/
def analyze_contract_activity (txProv : String → ℕ → TxPageResp)
    (addresses : List String) (contracts_config : List (String × ContractCfg))
    (fuel : ℕ) : List (String × List (String × ℕ)) × ℕ :=
  let init := (dedupFirst (addresses.map strLower)).map (fun a => (a, ([] : List (String × ℕ))))
  contracts_config.foldl (analyzeStep txProv fuel) (init, 0)

/-- Read `activity[a][c]`, defaulting to zero as the report builder does. -/
def actLookup (m : List (String × List (String × ℕ))) (a c : String) : ℕ :=
  (alookup ((alookup m a).getD []) c).getD 0

theorem alookup_bumpA (l : List (String × ℕ)) (k : String) (v : ℕ) (k2 : String) :
    alookup (bumpA l k v) k2 =
      if k2 = k then some ((alookup l k).getD 0 + v) else alookup l k2 := by
  induction l with
  | nil =>
    simp only [bumpA, alookup]
    split_ifs with h1 h2 h2 <;> simp_all
  | cons p t ih =>
    obtain ⟨k3, v3⟩ := p
    by_cases h3 : k3 = k
    · subst h3
      simp only [bumpA, if_pos rfl]
      by_cases h : k2 = k3
      · subst h
        simp [alookup]
      · have h4 : ¬ k3 = k2 := fun hh => h hh.symm
        simp [alookup, h, h4]
    · simp only [bumpA, if_neg h3]
      by_cases h : k3 = k2
      · subst h
        simp [alookup, h3]
      · simp [alookup, h, h3, ih]

theorem alookup_bumpAct_ne (m : List (String × List (String × ℕ))) (a c : String)
    (v : ℕ) (x : String) (hx : x ≠ a) :
    alookup (bumpAct m a c v) x = alookup m x := by
  induction m with
  | nil => rfl
  | cons p t ih =>
    obtain ⟨a2, inner⟩ := p
    by_cases h2 : a2 = a
    · subst h2
      have h4 : ¬ a2 = x := fun hh => hx (hh ▸ rfl)
      simp [bumpAct, alookup, h4]
    · by_cases h5 : a2 = x
      · subst h5
        simp [bumpAct, alookup, h2]
      · simp [bumpAct, alookup, h2, h5, ih]

theorem alookup_bumpAct_some (m : List (String × List (String × ℕ))) (a c : String)
    (v : ℕ) (inner : List (String × ℕ)) (h : alookup m a = some inner) :
    alookup (bumpAct m a c v) a = some (bumpA inner c v) := by
  induction m with
  | nil => simp [alookup] at h
  | cons p t ih =>
    obtain ⟨a2, inner2⟩ := p
    by_cases h2 : a2 = a
    · subst h2
      simp only [alookup, if_pos rfl] at h
      cases h
      simp [bumpAct, alookup]
    · simp only [alookup, if_neg h2] at h
      simp only [bumpAct, if_neg h2, alookup, if_neg h2]
      exact ih h

theorem bumpAct_of_none (m : List (String × List (String × ℕ))) (a c : String)
    (v : ℕ) (h : alookup m a = none) :
    bumpAct m a c v = m := by
  induction m with
  | nil => rfl
  | cons p t ih =>
    obtain ⟨a2, inner2⟩ := p
    by_cases h2 : a2 = a
    · subst h2
      simp [alookup] at h
    · simp only [alookup, if_neg h2] at h
      simp only [bumpAct, if_neg h2]
      rw [ih h]

theorem processTransfers_nil (cat : String) (fns : List String)
    (m : List (String × List (String × ℕ))) :
    processTransfers cat fns [] m = m := rfl

theorem processTransfers_cons (cat : String) (fns : List String) (tx : TxRec)
    (recs : List TxRec) (m : List (String × List (String × ℕ))) :
    processTransfers cat fns (tx :: recs) m =
      processTransfers cat fns recs
        (if txQualifies m fns tx then bumpAct m (strLower tx.fromAddr) cat tx.value else m) := by
  simp only [processTransfers, List.foldl_cons]

theorem isSome_bumpAct (m : List (String × List (String × ℕ))) (a c : String)
    (v : ℕ) (x : String) :
    (alookup (bumpAct m a c v) x).isSome = (alookup m x).isSome := by
  by_cases hx : x = a
  · subst hx
    cases halo : alookup m x with
    | none => rw [bumpAct_of_none m x c v halo, halo]
    | some inner =>
      rw [alookup_bumpAct_some m x c v inner halo]
      rfl
  · rw [alookup_bumpAct_ne m a c v x hx]

theorem isSome_processTransfers (cat : String) (fns : List String) :
    ∀ (recs : List TxRec) (m : List (String × List (String × ℕ))) (x : String),
    (alookup (processTransfers cat fns recs m) x).isSome = (alookup m x).isSome := by
  intro recs
  induction recs with
  | nil => intro m x; rfl
  | cons tx recs ih =>
    intro m x
    rw [processTransfers_cons]
    by_cases hq : txQualifies m fns tx
    · rw [if_pos hq, ih, isSome_bumpAct]
    · rw [if_neg hq, ih]

theorem alookup_processTransfers_none (cat : String) (fns : List String)
    (recs : List TxRec) (m : List (String × List (String × ℕ))) (a : String)
    (h : alookup m a = none) :
    alookup (processTransfers cat fns recs m) a = none := by
  have := isSome_processTransfers cat fns recs m a
  rw [h] at this
  cases halo : alookup (processTransfers cat fns recs m) a with
  | none => rfl
  | some inner => rw [halo] at this; simp at this

theorem actLookup_bumpAct_self (m : List (String × List (String × ℕ))) (a cat : String)
    (v : ℕ) (inner : List (String × ℕ)) (h : alookup m a = some inner) (c : String) :
    actLookup (bumpAct m a cat v) a c =
      if c = cat then actLookup m a c + v else actLookup m a c := by
  unfold actLookup
  rw [alookup_bumpAct_some m a cat v inner h, h]
  simp only [Option.getD_some]
  rw [alookup_bumpA]
  by_cases hc : c = cat
  · simp [hc]
  · simp [hc]

theorem actLookup_processTransfers_other (cat : String) (fns : List String)
    (c : String) (hc : c ≠ cat) :
    ∀ (recs : List TxRec) (m : List (String × List (String × ℕ))) (a : String),
    actLookup (processTransfers cat fns recs m) a c = actLookup m a c := by
  intro recs
  induction recs with
  | nil => intro m a; rfl
  | cons tx recs ih =>
    intro m a
    rw [processTransfers_cons]
    by_cases hq : txQualifies m fns tx
    · rw [if_pos hq, ih]
      by_cases ha : strLower tx.fromAddr = a
      · have hq2 := hq
        unfold txQualifies at hq2
        rw [Bool.and_eq_true] at hq2
        have hs := hq2.1
        rw [ha] at hs
        cases halo : alookup m a with
        | none => rw [halo] at hs; simp at hs
        | some inner =>
          rw [ha]
          rw [actLookup_bumpAct_self m a cat tx.value inner halo c, if_neg hc]
      · unfold actLookup
        rw [alookup_bumpAct_ne m (strLower tx.fromAddr) cat tx.value a
          (fun hh => ha hh.symm)]
    · rw [if_neg hq, ih]

/-- The display-independent qualification predicate of one transfer record for
one recipient bucket `a`: the record's lowered `from` address is `a` and some
configured pattern occurs case-insensitively in its decoded function name. -/
def txForBucket (a : String) (fns : List String) (tx : TxRec) : Bool :=
  (strLower tx.fromAddr == a) &&
  fns.any (fun f => strHasSub (strLower f) (strLower tx.functionName))

theorem actLookup_processTransfers_cat (cat : String) (fns : List String) :
    ∀ (recs : List TxRec) (m : List (String × List (String × ℕ))) (a : String),
    (alookup m a).isSome = true →
    actLookup (processTransfers cat fns recs m) a cat =
      actLookup m a cat + ((recs.filter (txForBucket a fns)).map (fun tx => tx.value)).sum := by
  intro recs
  induction recs with
  | nil => intro m a _; simp [processTransfers_nil]
  | cons tx recs ih =>
    intro m a hs
    rw [processTransfers_cons]
    by_cases hq : txQualifies m fns tx
    · rw [if_pos hq]
      by_cases ha : strLower tx.fromAddr = a
      · have hp : txForBucket a fns tx = true := by
          unfold txForBucket
          unfold txQualifies at hq
          rw [Bool.and_eq_true] at hq ⊢
          exact ⟨by simp [ha], hq.2⟩
        cases halo : alookup m a with
        | none => rw [halo] at hs; simp at hs
        | some inner =>
          rw [ha]
          have hstep := actLookup_bumpAct_self m a cat tx.value inner halo cat
          rw [if_pos rfl] at hstep
          rw [ih _ a (by rw [isSome_bumpAct, halo]; rfl), hstep]
          rw [List.filter_cons_of_pos hp]
          simp [Nat.add_assoc]
      · have hp : txForBucket a fns tx = false := by
          unfold txForBucket
          simp [ha]
        rw [ih _ a (by rw [isSome_bumpAct]; exact hs)]
        have hunch : actLookup (bumpAct m (strLower tx.fromAddr) cat tx.value) a cat =
            actLookup m a cat := by
          unfold actLookup
          rw [alookup_bumpAct_ne m (strLower tx.fromAddr) cat tx.value a
            (fun hh => ha hh.symm)]
        rw [hunch, List.filter_cons_of_neg (by simp [hp])]
    · rw [if_neg hq]
      have hp : txForBucket a fns tx = false := by
        by_cases hweird : txForBucket a fns tx = true
        · exfalso
          unfold txForBucket at hweird
          rw [Bool.and_eq_true] at hweird
          obtain ⟨h1, h2⟩ := hweird
          have ha : strLower tx.fromAddr = a := by simpa using h1
          apply hq
          unfold txQualifies
          rw [Bool.and_eq_true]
          exact ⟨by rw [ha]; exact hs, h2⟩
        · simpa using hweird
      rw [ih m a hs, List.filter_cons_of_neg (by simp [hp])]

/-- The transfer records the aggregator fetches for one configured contract. -/
def fetchedTransfers (txProv : String → ℕ → TxPageResp) (fuel : ℕ) (k : String) : List TxRec :=
  (get_all_token_transfers (txProv k) 10000 none fuel).val

/-- The contribution of one configured contract to the bucket `(a, c)`:
nothing when misconfigured (empty category or empty pattern list), nothing when
its category is not `c`, otherwise the sum of the values of its qualifying
records. -/
def contribution (txProv : String → ℕ → TxPageResp) (fuel : ℕ) (a c : String)
    (entry : String × ContractCfg) : ℕ :=
  if entry.2.category = "" ∨ entry.2.functions = [] then 0
  else if c = entry.2.category then
    (((fetchedTransfers txProv fuel entry.1).filter (txForBucket a entry.2.functions)).map
      (fun tx => tx.value)).sum
  else 0

theorem analyzeFold_none (txProv : String → ℕ → TxPageResp) (fuel : ℕ) (a : String) :
    ∀ (config : List (String × ContractCfg)) (m : List (String × List (String × ℕ))) (n : ℕ),
    alookup m a = none →
    alookup (config.foldl (analyzeStep txProv fuel) (m, n)).1 a = none := by
  intro config
  induction config with
  | nil => intro m n h; exact h
  | cons e config ih =>
    intro m n h
    rw [List.foldl_cons]
    by_cases hg : e.2.category = "" ∨ e.2.functions = []
    · have hstep : analyzeStep txProv fuel (m, n) e = (m, n) := by
        unfold analyzeStep; rw [if_pos hg]
      rw [hstep]
      exact ih m n h
    · have hstep : analyzeStep txProv fuel (m, n) e =
          (processTransfers e.2.category e.2.functions (fetchedTransfers txProv fuel e.1) m,
           n + (get_all_token_transfers (txProv e.1) 10000 none fuel).requests) := by
        unfold analyzeStep fetchedTransfers; rw [if_neg hg]
      rw [hstep]
      exact ih _ _ (alookup_processTransfers_none _ _ _ _ _ h)

theorem analyzeFold_value (txProv : String → ℕ → TxPageResp) (fuel : ℕ) (a c : String) :
    ∀ (config : List (String × ContractCfg)) (m : List (String × List (String × ℕ))) (n : ℕ),
    (alookup m a).isSome = true →
    actLookup (config.foldl (analyzeStep txProv fuel) (m, n)).1 a c =
      actLookup m a c + (config.map (contribution txProv fuel a c)).sum := by
  intro config
  induction config with
  | nil => intro m n h; simp
  | cons e config ih =>
    intro m n h
    rw [List.foldl_cons, List.map_cons, List.sum_cons]
    by_cases hg : e.2.category = "" ∨ e.2.functions = []
    · have hstep : analyzeStep txProv fuel (m, n) e = (m, n) := by
        unfold analyzeStep; rw [if_pos hg]
      have hcontrib : contribution txProv fuel a c e = 0 := by
        unfold contribution; rw [if_pos hg]
      rw [hstep, ih m n h, hcontrib]
      omega
    · have hstep : analyzeStep txProv fuel (m, n) e =
          (processTransfers e.2.category e.2.functions (fetchedTransfers txProv fuel e.1) m,
           n + (get_all_token_transfers (txProv e.1) 10000 none fuel).requests) := by
        unfold analyzeStep fetchedTransfers; rw [if_neg hg]
      rw [hstep]
      have hsome2 : (alookup (processTransfers e.2.category e.2.functions
          (fetchedTransfers txProv fuel e.1) m) a).isSome = true := by
        rw [isSome_processTransfers]; exact h
      rw [ih _ _ hsome2]
      by_cases hc : c = e.2.category
      · have hcontrib : contribution txProv fuel a c e =
            (((fetchedTransfers txProv fuel e.1).filter (txForBucket a e.2.functions)).map
              (fun tx => tx.value)).sum := by
          unfold contribution
          rw [if_neg hg, if_pos hc]
        rw [hcontrib, hc, actLookup_processTransfers_cat _ _ _ _ _ h]
        omega
      · have hcontrib : contribution txProv fuel a c e = 0 := by
          unfold contribution; rw [if_neg hg, if_neg hc]
        rw [actLookup_processTransfers_other _ _ _ hc, hcontrib]
        omega

theorem alookup_map_nil (l : List String) (x : String) :
    alookup (l.map (fun a => (a, ([] : List (String × ℕ))))) x =
      if x ∈ l then some [] else none := by
  induction l with
  | nil => simp [alookup]
  | cons a t ih =>
    by_cases h : a = x
    · subst h
      simp [alookup]
    · have hxa : ¬ x = a := fun hh => h hh.symm
      simp only [List.map_cons, alookup, if_neg h, ih]
      simp [List.mem_cons, hxa]

theorem mem_dedupFirstGo :
    ∀ (l seen : List String) (x : String), x ∈ dedupFirstGo seen l ↔ (x ∈ l ∧ x ∉ seen) := by
  intro l
  induction l with
  | nil => intro seen x; simp [dedupFirstGo]
  | cons a t ih =>
    intro seen x
    by_cases hc : seen.contains a
    · have hca : a ∈ seen := by simpa using hc
      rw [show dedupFirstGo seen (a :: t) = dedupFirstGo seen t from by
        rw [dedupFirstGo, if_pos hc]]
      rw [ih]
      constructor
      · rintro ⟨ht, hs⟩
        exact ⟨List.mem_cons_of_mem a ht, hs⟩
      · rintro ⟨hor, hs⟩
        rcases List.mem_cons.1 hor with rfl | ht
        · exact absurd hca hs
        · exact ⟨ht, hs⟩
    · have hca : a ∉ seen := by simpa using hc
      rw [show dedupFirstGo seen (a :: t) = a :: dedupFirstGo (a :: seen) t from by
        rw [dedupFirstGo, if_neg (by simpa using hc)]]
      constructor
      · intro hmem
        rcases List.mem_cons.1 hmem with rfl | ht
        · exact ⟨List.mem_cons_self x t, hca⟩
        · obtain ⟨h1, h2⟩ := (ih (a :: seen) x).1 ht
          refine ⟨List.mem_cons_of_mem a h1, fun hx => h2 (List.mem_cons_of_mem a hx)⟩
      · rintro ⟨hor, hs⟩
        rcases List.mem_cons.1 hor with rfl | ht
        · exact List.mem_cons_self x _
        · by_cases hxa : x = a
          · subst hxa
            exact List.mem_cons_self x _
          · refine List.mem_cons_of_mem a ((ih (a :: seen) x).2 ⟨ht, ?_⟩)
            intro hx
            rcases List.mem_cons.1 hx with h1 | h2
            · exact hxa h1
            · exact hs h2

theorem mem_dedupFirst (l : List String) (x : String) : x ∈ dedupFirst l ↔ x ∈ l := by
  unfold dedupFirst
  rw [mem_dedupFirstGo]
  simp

/-- C6: for every recipient bucket `a` (a lowered recipient address), the total
in `ActivityTotals[a][c]` is exactly the sum, over configured contracts whose
category is `c` and which are not misconfigured (empty category label or empty
pattern list contribute nothing), of the values of the fetched transfer records
whose `from` address equals `a` case-insensitively and whose decoded function
name contains one of the contract's patterns case-insensitively — each record
counted exactly once, as an exact integer amount; and no bucket exists for an
address that is not a lowered recipient address. -/
theorem c6_activity_aggregation (txProv : String → ℕ → TxPageResp)
    (addresses : List String) (config : List (String × ContractCfg)) (fuel : ℕ)
    (a : String) :
    (a ∈ addresses.map strLower →
      ∀ c, actLookup (analyze_contract_activity txProv addresses config fuel).1 a c =
        (config.map (contribution txProv fuel a c)).sum) ∧
    (a ∉ addresses.map strLower →
      alookup (analyze_contract_activity txProv addresses config fuel).1 a = none) := by
  have hini : alookup ((dedupFirst (addresses.map strLower)).map
      (fun a => (a, ([] : List (String × ℕ))))) a =
      if a ∈ dedupFirst (addresses.map strLower) then some [] else none :=
    alookup_map_nil _ _
  constructor
  · intro ha c
    have hmem : a ∈ dedupFirst (addresses.map strLower) := (mem_dedupFirst _ _).2 ha
    rw [if_pos hmem] at hini
    unfold analyze_contract_activity
    rw [analyzeFold_value txProv fuel a c config _ 0 (by rw [hini]; rfl)]
    rw [show actLookup ((dedupFirst (addresses.map strLower)).map
        (fun a => (a, ([] : List (String × ℕ))))) a c = 0 from by
      unfold actLookup; rw [hini]; rfl]
    omega
  · intro ha
    have hmem : a ∉ dedupFirst (addresses.map strLower) := fun h => ha ((mem_dedupFirst _ _).1 h)
    rw [if_neg hmem] at hini
    unfold analyze_contract_activity
    exact analyzeFold_none txProv fuel a config _ 0 hini

/-- A concrete transfer-history provider for one staking contract: four
records exercising every qualification case. -/
def txProvC6 : String → ℕ → TxPageResp := fun k page =>
  if k = "0xstake" ∧ page = 1 then
    .ok [⟨"0xAAAA", "increase_amount(uint256 _value)", 500⟩,
         ⟨"0xaaaa", "transfer(address,uint256)", 900⟩,
         ⟨"0xbbbb", "increase_amount(uint256)", 700⟩,
         ⟨"0xaaaa", "CREATE_LOCK(uint256)", 100⟩]
  else .noneFound

/-- A concrete activity configuration: one valid staking contract and two
misconfigured entries (empty category; empty pattern list). -/
def configC6 : List (String × ContractCfg) :=
  [("0xstake", ⟨"staking", ["increase_amount", "create_lock"]⟩),
   ("0xmis", ⟨"", ["x"]⟩),
   ("0xmis2", ⟨"liquidity", []⟩)]

theorem c6_activity_aggregation_witness :
    actLookup (analyze_contract_activity txProvC6 ["0xAAAA", "0xcccc"] configC6 3).1
      "0xaaaa" "staking" = 600 ∧
    alookup (analyze_contract_activity txProvC6 ["0xAAAA", "0xcccc"] configC6 3).1
      "0xbbbb" = none := by
  constructor
  · have h := (c6_activity_aggregation txProvC6 ["0xAAAA", "0xcccc"] configC6 3 "0xaaaa").1
      (by decide) "staking"
    rw [h]
    decide
  · exact (c6_activity_aggregation txProvC6 ["0xAAAA", "0xcccc"] configC6 3 "0xbbbb").2
      (by decide)

/-- The natural number denoted by a list of decimal digit characters. -/
def natOfDigits (cs : List Char) : ℕ :=
  cs.foldl (fun a c => 10 * a + (c.toNat - '0'.toNat)) 0

/-- The exact value of an unsigned decimal numeral `digits[.digits]`. -/
def decOfChars (cs : List Char) : Dec :=
  let ip := cs.takeWhile (fun c => c ≠ '.')
  let fp := (cs.dropWhile (fun c => c ≠ '.')).drop 1
  ⟨(natOfDigits ip : ℤ) * 10 ^ fp.length + (natOfDigits fp : ℤ), (10 : ℤ) ^ fp.length⟩

/-- `Decimal(s)` on the plain decimal numerals `format_decimal` produces
(optional minus sign, digits, optional fraction). -/
def decOfString (s : String) : Dec :=
  match s.data with
  | c :: cs => if c = '-' then ⟨-(decOfChars cs).n, (decOfChars cs).d⟩ else decOfChars (c :: cs)
  | [] => decOfChars []

/-- The sort key of the final ordering (src/logic.py line 641):
`Decimal(r[2])`, the value displayed in the current-balance column. -/
def decKeyRow (r : List String) : Dec := decOfString (r.getD 2 "0")

/-- The comparator realised by `sorted(rows, key=lambda r: Decimal(r[2]),
reverse=True)`: `r` may precede `s` when its displayed current balance is at
least that of `s`; Python's sort is stable, as is `List.mergeSort`. -/
def rowLeB (r s : List String) : Bool := dleB (decKeyRow s) (decKeyRow r)

/-- Insert `a` into `s` in front of the first element `b` with `le a b`.
Building block of the stable sort below. -/
def insertStable {α : Type} (le : α → α → Bool) (a : α) : List α → List α
  | [] => [a]
  | b :: t => if le a b then a :: b :: t else b :: insertStable le a t

/-- Python's `sorted(l, ...)`: a stable sort.  With respect to a total
transitive comparator the stably sorted permutation is unique, so this
structurally recursive insertion sort returns exactly what Python's timsort
returns; it is chosen so that runs evaluate inside the kernel. -/
def stableSort {α : Type} (le : α → α → Bool) : List α → List α
  | [] => []
  | a :: t => insertStable le a (stableSort le t)

/-- Python `sorted` on strings (lexicographic, stability irrelevant after
deduplication). -/
def sortStrings (l : List String) : List String :=
  stableSort (fun a b => decide (a ≤ b)) l

/-- The provider behaviour of one run: per-transaction receipt attempts, the
holder-count attempts, the holder-list pages and the per-contract
transfer-history pages. -/
structure Provider where
  receiptResp : String → ℕ → ReceiptResp
  countResp : ℕ → CountResp
  holderPage : ℕ → PageResp
  txPage : String → ℕ → TxPageResp

/-- The two ways `fetch_airdrop_data` can raise: `SystemExit` when a receipt
could not be fetched, and the unguarded `IndexError` of the receipt parser. -/
inductive RunError where
  | receiptFailure (txhash : String)
  | indexError
deriving DecidableEq

/-- The observable outcome of `fetch_airdrop_data`: the returned
`(rows_sorted, api_calls)` plus, for specification purposes, the intermediate
aggregates and `requestsMade`, the number of HTTP requests actually issued. -/
structure RunResult where
  rows : List (List String)
  rows_sorted : List (List String)
  header : List String
  api_calls : ℕ
  requestsMade : ℕ
  received : List (String × ℕ)
  addresses : List String
  balance_lookup : List (String × ℕ)
  holders_fetched : ℕ
  all_categories : List String
  not_found_count : ℕ
deriving DecidableEq

/-- Step 1 of `fetch_airdrop_data` (src/logic.py lines 516-535): fetch each
receipt (fatal `SystemExit` when missing), parse it (`IndexError` may
propagate), and accumulate the received wei per recipient in an
insertion-ordered dict; counts `api_calls` (one per transaction hash,
regardless of retries) and the requests actually made. -/
def buildReceivedGo (prov : Provider) (token_contract : String) :
    List String → List (String × ℕ) → ℕ → ℕ →
    Except RunError (List (String × ℕ) × ℕ × ℕ)
  | [], received, api, req => .ok (received, api, req)
  | tx :: rest, received, api, req =>
    let fo := fetch_transaction_receipt (prov.receiptResp tx)
    match fo.val with
    | none => .error (.receiptFailure tx)
    | some rc =>
      match parse_transfers_from_receipt rc token_contract with
      | .error _ => .error .indexError
      | .ok transfers =>
        buildReceivedGo prov token_contract rest
          (transfers.foldl (fun m p => bumpA m p.1 p.2) received)
          (api + 1) (req + fo.requests)

/-- The receipts phase, started from an empty `received` dict. -/
def buildReceived (prov : Provider) (token_contract : String) (tx_hashes : List String) :
    Except RunError (List (String × ℕ) × ℕ × ℕ) :=
  buildReceivedGo prov token_contract tx_hashes [] 0 0

/-- The percent-remaining value of one row (src/logic.py line 608):
`cur / rcv * 100` when `rcv > 0`, else `0` — the division is guarded, never
reached with a zero divisor. -/
def pctDec (received_wei balance_wei : ℕ) : Dec :=
  let scale : Dec := ⟨(10 : ℤ) ^ DECIMALS, 1⟩
  let rcv := ddiv ⟨(received_wei : ℤ), 1⟩ scale
  let cur := ddiv ⟨(balance_wei : ℤ), 1⟩ scale
  if dltB ⟨0, 1⟩ rcv then dmul (ddiv cur rcv) ⟨100, 1⟩ else ⟨0, 1⟩

/-- One output row (src/logic.py lines 596-634): the address, the formatted
received/current/delta values, the quantized percent, and one formatted value
per category column. -/
def buildRow (received balance_lookup : List (String × ℕ))
    (activity : List (String × List (String × ℕ))) (cats : List String)
    (addr : String) : List String :=
  let scale : Dec := ⟨(10 : ℤ) ^ DECIMALS, 1⟩
  let received_wei := (alookup received addr).getD 0
  let balance_wei := (alookup balance_lookup (strLower addr)).getD 0
  let rcv := ddiv ⟨(received_wei : ℤ), 1⟩ scale
  let cur := ddiv ⟨(balance_wei : ℤ), 1⟩ scale
  let delta := dsub cur rcv
  [addr, format_decimal rcv, format_decimal cur, format_decimal delta,
   fmt2f (pctDec received_wei balance_wei) ++ "%"]
  ++ cats.map (fun c =>
      format_decimal (ddiv ⟨(actLookup activity (strLower addr) c : ℤ), 1⟩ scale))

/-- The &quot;not found&quot; diagnostic test (src/logic.py line 602): zero balance
and the lowered address absent from the lookup. -/
def notFound (balance_lookup : List (String × ℕ)) (addr : String) : Bool :=
  ((alookup balance_lookup (strLower addr)).getD 0 == 0) &&
  (alookup balance_lookup (strLower addr)).isNone

/-- `fetch_airdrop_data(tx_hashes, output_file, test_mode, token_contract)`
(src/logic.py lines 488-667), abstracted over the provider and with the
unbounded pagination fuelled.  Mirrors the source phases in order: receipts,
holder count, holder list (with the page-count estimate
`len(all_holders) // 10000 + 1` added to `api_calls`), balance lookup
construction (lowered keys, last write wins), activity analysis (whose
requests are not added to `api_calls`), category union (sorted), row building,
the &quot;not found&quot; count, and the final stable sort by the displayed
current balance, descending.  CSV writing is the returned header and rows. -/
def fetch_airdrop_data (prov : Provider) (tx_hashes : List String)
    (test_mode : Bool) (token_contract : String)
    (contracts_config : List (String × ContractCfg)) (fuel : ℕ) :
    Except RunError RunResult :=
  match buildReceived prov token_contract tx_hashes with
  | .error e => .error e
  | .ok (received, apiR, reqR) =>
    let addresses0 := received.map (fun p => p.1)
    let addresses := if test_mode then addresses0.take 100 else addresses0
    let foCount := get_token_holder_count prov.countResp
    let foHold := get_all_token_holders prov.holderPage 10000 none fuel
    let all_holders := foHold.val
    let pages_fetched := all_holders.length / 10000 + 1
    let balance_lookup := all_holders.foldl (fun m h => asetA m (strLower h.addr) h.quantity) []
    let act := analyze_contract_activity prov.txPage addresses contracts_config fuel
    let all_categories :=
      sortStrings (dedupFirst ((act.1.map (fun p => p.2.map (fun q => q.1))).flatten))
    let rows := addresses.map (buildRow received balance_lookup act.1 all_categories)
    let rows_sorted := stableSort rowLeB rows
    let header := ["address", "received_total_YB", "current_balance_YB", "delta_YB",
                   "percent_remaining"] ++ all_categories.map (fun c => c ++ "_value_YB")
    .ok { rows := rows, rows_sorted := rows_sorted, header := header,
          api_calls := apiR + 1 + pages_fetched,
          requestsMade := reqR + foCount.requests + foHold.requests + act.2,
          received := received, addresses := addresses,
          balance_lookup := balance_lookup,
          holders_fetched := all_holders.length,
          all_categories := all_categories,
          not_found_count := addresses.countP (notFound balance_lookup) }

theorem insertStable_perm {α : Type} (le : α → α → Bool) (a : α) (s : List α) :
    (insertStable le a s).Perm (a :: s) := by
  induction s with
  | nil => exact List.Perm.refl _
  | cons b t ih =>
    by_cases h : le a b
    · rw [insertStable, if_pos h]
    · rw [insertStable, if_neg h]
      exact (ih.cons b).trans (List.Perm.swap a b t)

theorem stableSort_perm {α : Type} (le : α → α → Bool) (l : List α) :
    (stableSort le l).Perm l := by
  induction l with
  | nil => exact List.Perm.refl _
  | cons a t ih =>
    rw [stableSort]
    exact (insertStable_perm le a (stableSort le t)).trans (ih.cons a)

theorem mem_insertStable {α : Type} (le : α → α → Bool) (a x : α) (s : List α) :
    x ∈ insertStable le a s ↔ x = a ∨ x ∈ s := by
  rw [(insertStable_perm le a s).mem_iff, List.mem_cons]

theorem pairwise_insertStable {α : Type} (le : α → α → Bool)
    (total : ∀ a b, (le a b || le b a) = true)
    (trans : ∀ a b c, le a b = true → le b c = true → le a c = true)
    (a : α) (s : List α) (hs : s.Pairwise (fun x y => le x y = true)) :
    (insertStable le a s).Pairwise (fun x y => le x y = true) := by
  induction s with
  | nil => simp [insertStable]
  | cons b t ih =>
    rw [List.pairwise_cons] at hs
    obtain ⟨hb, ht⟩ := hs
    by_cases h : le a b
    · rw [insertStable, if_pos h]
      rw [List.pairwise_cons]
      refine ⟨?_, List.pairwise_cons.2 ⟨hb, ht⟩⟩
      intro z hz
      rcases List.mem_cons.1 hz with rfl | hz2
      · exact h
      · exact trans a b z h (hb z hz2)
    · have hba : le b a = true := by
        have := total a b
        rw [Bool.or_eq_true] at this
        rcases this with h1 | h2
        · exact absurd h1 h
        · exact h2
      rw [insertStable, if_neg h]
      rw [List.pairwise_cons]
      refine ⟨?_, ih ht⟩
      intro z hz
      rcases (mem_insertStable le a z t).1 hz with rfl | hz2
      · exact hba
      · exact hb z hz2

theorem stableSort_pairwise {α : Type} (le : α → α → Bool)
    (total : ∀ a b, (le a b || le b a) = true)
    (trans : ∀ a b c, le a b = true → le b c = true → le a c = true)
    (l : List α) :
    (stableSort le l).Pairwise (fun x y => le x y = true) := by
  induction l with
  | nil => simp [stableSort]
  | cons a t ih =>
    rw [stableSort]
    exact pairwise_insertStable le total trans a (stableSort le t) ih

theorem sublist_insertStable {α : Type} (le : α → α → Bool) (a : α) (s : List α) :
    s.Sublist (insertStable le a s) := by
  induction s with
  | nil => simp [insertStable]
  | cons b t ih =>
    by_cases h : le a b
    · rw [insertStable, if_pos h]
      exact (List.Sublist.refl (b :: t)).cons a
    · rw [insertStable, if_neg h]
      exact ih.cons₂ b

theorem pair_sublist_insertStable {α : Type} (le : α → α → Bool) (a b : α)
    (s : List α) (hb : b ∈ s) (hab : le a b = true) :
    [a, b].Sublist (insertStable le a s) := by
  induction s with
  | nil => exact absurd hb (List.not_mem_nil b)
  | cons y t ih =>
    by_cases h : le a y
    · rw [insertStable, if_pos h]
      exact (List.singleton_sublist.2 hb).cons₂ a
    · rw [insertStable, if_neg h]
      rcases List.mem_cons.1 hb with rfl | hbt
      · exact absurd hab h
      · exact (ih hbt).cons y

theorem pair_sublist_stableSort {α : Type} (le : α → α → Bool) (a b : α)
    (l : List α) (h : [a, b].Sublist l) (hab : le a b = true) :
    [a, b].Sublist (stableSort le l) := by
  induction l with
  | nil => cases h
  | cons x t ih =>
    rw [stableSort]
    cases h with
    | cons _ h2 =>
      exact (ih h2).trans (sublist_insertStable le x (stableSort le t))
    | cons₂ _ h2 =>
      have hbt : b ∈ stableSort le t :=
        (stableSort_perm le t).mem_iff.2 (List.singleton_sublist.1 h2)
      exact pair_sublist_insertStable le a b (stableSort le t) hbt hab

theorem decOfChars_d_pos (cs : List Char) : 0 < (decOfChars cs).d := by
  unfold decOfChars
  exact pow_pos (by norm_num) _

theorem decOfString_d_pos (s : String) : 0 < (decOfString s).d := by
  unfold decOfString
  cases hd : s.data with
  | nil => exact decOfChars_d_pos []
  | cons c cs =>
    by_cases h : c = '-'
    · simp only [if_pos h]
      exact decOfChars_d_pos cs
    · simp only [if_neg h]
      exact decOfChars_d_pos (c :: cs)

theorem dleB_trans_of_pos (x y z : Dec) (hx : 0 < x.d) (hy : 0 < y.d) (hz : 0 < z.d)
    (h1 : dleB x y = true) (h2 : dleB y z = true) : dleB x z = true := by
  simp only [dleB, decide_eq_true_eq] at h1 h2 ⊢
  have C : x.n * z.d * y.d ≤ z.n * x.d * y.d := by
    calc x.n * z.d * y.d = x.n * y.d * z.d := by ring
      _ ≤ y.n * x.d * z.d := mul_le_mul_of_nonneg_right h1 hz.le
      _ = y.n * z.d * x.d := by ring
      _ ≤ z.n * y.d * x.d := mul_le_mul_of_nonneg_right h2 hx.le
      _ = z.n * x.d * y.d := by ring
  exact le_of_mul_le_mul_right C hy

theorem dleB_total (x y : Dec) : (dleB x y || dleB y x) = true := by
  simp only [dleB, Bool.or_eq_true, decide_eq_true_eq]
  exact Int.le_total (x.n * y.d) (y.n * x.d)

theorem rowLeB_total (r s : List String) : (rowLeB r s || rowLeB s r) = true :=
  dleB_total (decKeyRow s) (decKeyRow r)

theorem rowLeB_trans (r s t : List String) (h1 : rowLeB r s = true)
    (h2 : rowLeB s t = true) : rowLeB r t = true :=
  dleB_trans_of_pos (decKeyRow t) (decKeyRow s) (decKeyRow r)
    (decOfString_d_pos _) (decOfString_d_pos _) (decOfString_d_pos _) h2 h1

/-- C2 (amended): the rows returned by `fetch_airdrop_data` are sorted in
descending order of the value displayed in the current-balance column (the sort
key `Decimal(r[2])` re-parses the 2-decimal formatted string, src/logic.py line
641) — not of the recipient's actual current balance — and the sort is stable:
rows with equal displayed values keep their encounter order. -/
theorem c2_rows_sorted_by_displayed_current (prov : Provider) (txs : List String)
    (token : String) (cfg : List (String × ContractCfg)) (fuel : ℕ) (res : RunResult)
    (h : fetch_airdrop_data prov txs false token cfg fuel = .ok res) :
    res.rows_sorted.Pairwise (fun r s => rowLeB r s = true) ∧
    res.rows_sorted.Perm res.rows ∧
    (∀ r s, [r, s].Sublist res.rows → rowLeB r s = true →
      [r, s].Sublist res.rows_sorted) := by
  unfold fetch_airdrop_data at h
  cases hb : buildReceived prov token txs with
  | error e => rw [hb] at h; exact absurd h (by simp)
  | ok trip =>
    obtain ⟨received, apiR, reqR⟩ := trip
    rw [hb] at h
    simp only [Except.ok.injEq] at h
    subst h
    refine ⟨stableSort_pairwise rowLeB rowLeB_total rowLeB_trans _,
            stableSort_perm rowLeB _,
            fun r s hsub hle => pair_sublist_stableSort rowLeB r s _ hsub hle⟩

/-- The third topic carrying recipient address `a...a`, and the address
itself. -/
def topicA : String := "0x000000000000000000000000aaaaaaaaaaaaaaaaaaaaaaaaaaaaaaaaaaaaaaaa"

/-- The third topic carrying recipient address `b...b`. -/
def topicB : String := "0x000000000000000000000000bbbbbbbbbbbbbbbbbbbbbbbbbbbbbbbbbbbbbbbb"

/-- Recipient address `a...a` in normalized form. -/
def addrA : String := "0xaaaaaaaaaaaaaaaaaaaaaaaaaaaaaaaaaaaaaaaa"

/-- Recipient address `b...b` in normalized form. -/
def addrB : String := "0xbbbbbbbbbbbbbbbbbbbbbbbbbbbbbbbbbbbbbbbb"

/-- A receipt with one 1-token Transfer to each of the two addresses
(`0xde0b6b3a7640000` = 10^18 wei). -/
def rcTwoTransfers : Receipt :=
  ⟨[⟨TOKEN_CONTRACT, [TRANSFER_TOPIC, topicA, topicA], some "0xde0b6b3a7640000"⟩,
    ⟨TOKEN_CONTRACT, [TRANSFER_TOPIC, topicA, topicB], some "0xde0b6b3a7640000"⟩]⟩

/-- A provider whose holder snapshot gives `a...a` a balance of 12.499 tokens
and `b...b` 12.501 tokens — distinct balances with the same 2-decimal
display. -/
def provTieDisplay : Provider :=
  { receiptResp := fun _ att => if att = 0 then .ok rcTwoTransfers else .empty,
    countResp := fun _ => .ok 2,
    holderPage := fun page =>
      if page = 1 then .ok [⟨addrA, 12499000000000000000⟩, ⟨addrB, 12501000000000000000⟩]
      else .ok [],
    txPage := fun _ _ => .noneFound }

/-- The concrete run used by several witnesses. -/
def runTie : Except RunError RunResult :=
  fetch_airdrop_data provTieDisplay ["0xt1"] false TOKEN_CONTRACT [] 3

/-- Project the result out of a successful run (dummy record on error). -/
def runResult (e : Except RunError RunResult) : RunResult :=
  match e with
  | .ok r => r
  | .error _ => ⟨[], [], [], 0, 0, [], [], [], 0, [], 0⟩

/-- Is the row list in descending order of the actual (wei) current balance of
each row's address? -/
def descByCurrentWei (lookup : List (String × ℕ)) : List (List String) → Bool
  | r :: s :: t =>
      ((alookup lookup (strLower (s.headD ""))).getD 0 ≤
        (alookup lookup (strLower (r.headD ""))).getD 0) &&
      descByCurrentWei lookup (s :: t)
  | _ => true

/-- C2's counterexample: in the concrete run the recipient with true balance
12.499 precedes the one with 12.501 (both display as `12.5`, and the stable
sort keeps encounter order), so the output is NOT sorted by the recipient's
current balance descending as the claim states. -/
theorem c2_counterexample :
    descByCurrentWei (runResult runTie).balance_lookup (runResult runTie).rows_sorted
      = false := by
  decide

theorem c2_rows_sorted_by_displayed_current_witness :
    (runResult runTie).rows_sorted.Pairwise (fun r s => rowLeB r s = true) ∧
    (runResult runTie).rows_sorted.Perm (runResult runTie).rows ∧
    (∀ r s, [r, s].Sublist (runResult runTie).rows → rowLeB r s = true →
      [r, s].Sublist (runResult runTie).rows_sorted) :=
  c2_rows_sorted_by_displayed_current provTieDisplay ["0xt1"] TOKEN_CONTRACT [] 3
    (runResult runTie) (by rfl)

/-- Field equations of a successful run, naming the intermediates of
`fetch_airdrop_data`. -/
theorem fetch_airdrop_data_ok (prov : Provider) (txs : List String) (tm : Bool)
    (token : String) (cfg : List (String × ContractCfg)) (fuel : ℕ) (res : RunResult)
    (h : fetch_airdrop_data prov txs tm token cfg fuel = .ok res) :
    ∃ received apiR reqR,
      buildReceived prov token txs = .ok (received, apiR, reqR) ∧
      res.received = received ∧
      res.addresses = (if tm then (received.map (fun p => p.1)).take 100
                       else received.map (fun p => p.1)) ∧
      res.balance_lookup = (get_all_token_holders prov.holderPage 10000 none fuel).val.foldl
          (fun m h => asetA m (strLower h.addr) h.quantity) [] ∧
      res.all_categories = sortStrings (dedupFirst
          (((analyze_contract_activity prov.txPage res.addresses cfg fuel).1.map
            (fun p => p.2.map (fun q => q.1))).flatten)) ∧
      res.rows = res.addresses.map (buildRow received res.balance_lookup
          (analyze_contract_activity prov.txPage res.addresses cfg fuel).1
          res.all_categories) ∧
      res.rows_sorted = stableSort rowLeB res.rows ∧
      res.holders_fetched = (get_all_token_holders prov.holderPage 10000 none fuel).val.length ∧
      res.api_calls = apiR + 1 + (res.holders_fetched / 10000 + 1) ∧
      res.requestsMade = reqR + (get_token_holder_count prov.countResp).requests +
        (get_all_token_holders prov.holderPage 10000 none fuel).requests +
        (analyze_contract_activity prov.txPage res.addresses cfg fuel).2 ∧
      res.not_found_count = res.addresses.countP (notFound res.balance_lookup) := by
  unfold fetch_airdrop_data at h
  cases hb : buildReceived prov token txs with
  | error e => rw [hb] at h; exact absurd h (by simp)
  | ok trip =>
    obtain ⟨received, apiR, reqR⟩ := trip
    rw [hb] at h
    simp only [Except.ok.injEq] at h
    subst h
    exact ⟨received, apiR, reqR, rfl, rfl, rfl, rfl, rfl, rfl, rfl, rfl, rfl, rfl, rfl⟩

theorem bumpA_keys (m : List (String × ℕ)) (k : String) (v : ℕ) :
    (bumpA m k v).map (fun p => p.1) =
      if k ∈ m.map (fun p => p.1) then m.map (fun p => p.1)
      else m.map (fun p => p.1) ++ [k] := by
  induction m with
  | nil => simp [bumpA]
  | cons p t ih =>
    obtain ⟨k2, v2⟩ := p
    by_cases h2 : k2 = k
    · subst h2
      simp [bumpA]
    · have h3 : ¬ k = k2 := fun hh => h2 hh.symm
      simp only [bumpA, if_neg h2, List.map_cons, List.mem_cons, ih]
      by_cases hm : k ∈ t.map (fun p => p.1)
      · simp [hm, h3]
      · simp [hm, h3]

theorem bumpA_nodup (m : List (String × ℕ)) (k : String) (v : ℕ)
    (h : (m.map (fun p => p.1)).Nodup) : ((bumpA m k v).map (fun p => p.1)).Nodup := by
  rw [bumpA_keys]
  by_cases hm : k ∈ m.map (fun p => p.1)
  · rw [if_pos hm]; exact h
  · rw [if_neg hm]
    simp [List.nodup_append, h, hm]

theorem foldl_bumpA_nodup (ts : List (String × ℕ)) :
    ∀ (m : List (String × ℕ)), (m.map (fun p => p.1)).Nodup →
    ((ts.foldl (fun m p => bumpA m p.1 p.2) m).map (fun p => p.1)).Nodup := by
  induction ts with
  | nil => intro m h; exact h
  | cons p ts ih =>
    intro m h
    rw [List.foldl_cons]
    exact ih _ (bumpA_nodup m p.1 p.2 h)

theorem buildReceivedGo_nodup (prov : Provider) (token : String) :
    ∀ (txs : List String) (received : List (String × ℕ)) (api req : ℕ)
    (r : List (String × ℕ)) (a q : ℕ),
    buildReceivedGo prov token txs received api req = .ok (r, a, q) →
    (received.map (fun p => p.1)).Nodup → (r.map (fun p => p.1)).Nodup := by
  intro txs
  induction txs with
  | nil =>
    intro received api req r a q h hn
    simp only [buildReceivedGo, Except.ok.injEq, Prod.mk.injEq] at h
    rw [← h.1]
    exact hn
  | cons tx rest ih =>
    intro received api req r a q h hn
    rw [buildReceivedGo] at h
    cases hv : (fetch_transaction_receipt (prov.receiptResp tx)).val with
    | none =>
      simp only [hv] at h
      exact absurd h (by simp)
    | some rc =>
      simp only [hv] at h
      cases hp : parse_transfers_from_receipt rc token with
      | error e =>
        simp only [hp] at h
        exact absurd h (by simp)
      | ok transfers =>
        simp only [hp] at h
        exact ih _ _ _ r a q h (foldl_bumpA_nodup transfers received hn)

theorem countP_beq_of_nodup (l : List String) (hn : l.Nodup) (A : String) :
    l.countP (fun a => a == A) = if A ∈ l then 1 else 0 := by
  induction l with
  | nil => simp
  | cons x t ih =>
    rw [List.nodup_cons] at hn
    obtain ⟨hx, ht⟩ := hn
    rw [List.countP_cons, ih ht]
    by_cases h : x = A
    · subst h
      simp [hx]
    · have h2 : ¬ A = x := fun hh => h hh.symm
      simp [List.mem_cons, h, h2]

theorem countP_head_map_buildRow (received balup : List (String × ℕ))
    (actm : List (String × List (String × ℕ))) (cats : List String)
    (l : List String) (A : String) :
    (l.map (buildRow received balup actm cats)).countP (fun r => r.headD "" == A) =
      l.countP (fun a => a == A) := by
  induction l with
  | nil => rfl
  | cons a t ih =>
    have hh : ((buildRow received balup actm cats a).headD "" == A) = (a == A) := rfl
    rw [List.map_cons, List.countP_cons, List.countP_cons, ih, hh]

/-- C3: with `test_mode` disabled, the report contains exactly one row for
every address present in `receivedTotals` and no row for any other address
(rows counted by their address column). -/
theorem c3_join_completeness (prov : Provider) (txs : List String) (token : String)
    (cfg : List (String × ContractCfg)) (fuel : ℕ) (res : RunResult)
    (h : fetch_airdrop_data prov txs false token cfg fuel = .ok res) (A : String) :
    res.rows_sorted.countP (fun r => r.headD "" == A) =
      if A ∈ res.received.map (fun p => p.1) then 1 else 0 := by
  obtain ⟨received, apiR, reqR, hb, hrec, haddr, hbal, hcats, hrows, hsort, _⟩ :=
    fetch_airdrop_data_ok prov txs false token cfg fuel res h
  have hnodup : (received.map (fun p => p.1)).Nodup :=
    buildReceivedGo_nodup prov token txs [] 0 0 received apiR reqR hb (by simp)
  rw [hsort, (stableSort_perm rowLeB _).countP_eq, hrows, countP_head_map_buildRow]
  rw [haddr, if_neg (by simp), hrec]
  exact countP_beq_of_nodup _ hnodup A

theorem c3_join_completeness_witness :
    (runResult runTie).rows_sorted.countP (fun r => r.headD "" == addrA) = 1 ∧
    (runResult runTie).rows_sorted.countP (fun r => r.headD "" == "0xcc") = 0 := by
  constructor
  · rw [c3_join_completeness provTieDisplay ["0xt1"] TOKEN_CONTRACT [] 3
      (runResult runTie) (by rfl) addrA]
    decide
  · rw [c3_join_completeness provTieDisplay ["0xt1"] TOKEN_CONTRACT [] 3
      (runResult runTie) (by rfl) "0xcc"]
    decide

theorem pctDec_zero (bw : ℕ) : pctDec 0 bw = ⟨0, 1⟩ := by
  unfold pctDec
  norm_num [ddiv, dltB, DECIMALS]

theorem fmt2f_zero_pct : fmt2f ⟨0, 1⟩ ++ "%" = "0.00%" := by decide

theorem ddiv_pos_den (x y : Dec) (hy : 0 < y.n) : ddiv x y = ⟨x.n * y.d, x.d * y.n⟩ := by
  unfold ddiv
  rw [if_neg (by omega), if_neg (by omega)]

theorem pctDec_pos (rw bw : ℕ) (h : 0 < rw) :
    dval (pctDec rw bw) = ((bw : ℚ) / 10 ^ DECIMALS) / ((rw : ℚ) / 10 ^ DECIMALS) * 100 := by
  have hrw : (0 : ℤ) < (rw : ℤ) := by exact_mod_cast h
  have hsc : (0 : ℤ) < ((⟨(10 : ℤ) ^ DECIMALS, 1⟩ : Dec)).n := by
    show (0 : ℤ) < (10 : ℤ) ^ DECIMALS
    norm_num [DECIMALS]
  simp only [pctDec]
  rw [ddiv_pos_den ⟨(rw : ℤ), 1⟩ _ hsc, ddiv_pos_den ⟨(bw : ℤ), 1⟩ _ hsc]
  rw [if_pos (by simp only [dltB, decide_eq_true_eq]; omega)]
  rw [ddiv_pos_den _ _ (show (0 : ℤ) <
      ((⟨(rw : ℤ) * 1, 1 * (10 : ℤ) ^ DECIMALS⟩ : Dec)).n from by
    show (0 : ℤ) < (rw : ℤ) * 1
    omega)]
  simp only [dmul, dval, DECIMALS]
  push_cast
  have hq : ((rw : ℚ)) ≠ 0 := by positivity
  field_simp
  ring

/-- C4: every recipient's report row carries the percent field computed by the
guarded formula: exactly `current / received * 100` (as exact values) when the
received amount is positive, and exactly the string `0.00%` — the value zero,
with no division performed — when the received total is zero; the
division-by-zero branch is unreachable. -/
theorem c4_percent_guard (prov : Provider) (txs : List String) (tm : Bool)
    (token : String) (cfg : List (String × ContractCfg)) (fuel : ℕ) (res : RunResult)
    (h : fetch_airdrop_data prov txs tm token cfg fuel = .ok res) (a : String)
    (ha : a ∈ res.addresses) :
    ∃ r ∈ res.rows,
      r.headD "" = a ∧
      r.getD 4 "" = fmt2f (pctDec ((alookup res.received a).getD 0)
        ((alookup res.balance_lookup (strLower a)).getD 0)) ++ "%" ∧
      ((alookup res.received a).getD 0 = 0 →
        pctDec ((alookup res.received a).getD 0)
          ((alookup res.balance_lookup (strLower a)).getD 0) = ⟨0, 1⟩ ∧
        r.getD 4 "" = "0.00%") ∧
      (0 < (alookup res.received a).getD 0 →
        dval (pctDec ((alookup res.received a).getD 0)
          ((alookup res.balance_lookup (strLower a)).getD 0)) =
          (((alookup res.balance_lookup (strLower a)).getD 0 : ℚ) / 10 ^ DECIMALS) /
            (((alookup res.received a).getD 0 : ℚ) / 10 ^ DECIMALS) * 100) := by
  obtain ⟨received, apiR, reqR, hb, hrec, haddr, hbal, hcats, hrows, hsort, _⟩ :=
    fetch_airdrop_data_ok prov txs tm token cfg fuel res h
  refine ⟨buildRow received res.balance_lookup
      (analyze_contract_activity prov.txPage res.addresses cfg fuel).1
      res.all_categories a, ?_, rfl, ?_, ?_, ?_⟩
  · rw [hrows]
    exact List.mem_map_of_mem _ ha
  · rw [hrec]
    rfl
  · intro h0
    refine ⟨by rw [h0]; exact pctDec_zero _, ?_⟩
    have : (alookup received a).getD 0 = 0 := by rw [← hrec]; exact h0
    show fmt2f (pctDec ((alookup received a).getD 0) _) ++ "%" = "0.00%"
    rw [this, pctDec_zero]
    exact fmt2f_zero_pct
  · intro hpos
    exact pctDec_pos _ _ hpos

theorem c4_percent_guard_witness :
    ∃ r ∈ (runResult runTie).rows,
      r.headD "" = addrA ∧
      r.getD 4 "" = fmt2f (pctDec ((alookup (runResult runTie).received addrA).getD 0)
        ((alookup (runResult runTie).balance_lookup (strLower addrA)).getD 0)) ++ "%" ∧
      ((alookup (runResult runTie).received addrA).getD 0 = 0 →
        pctDec ((alookup (runResult runTie).received addrA).getD 0)
          ((alookup (runResult runTie).balance_lookup (strLower addrA)).getD 0) = ⟨0, 1⟩ ∧
        r.getD 4 "" = "0.00%") ∧
      (0 < (alookup (runResult runTie).received addrA).getD 0 →
        dval (pctDec ((alookup (runResult runTie).received addrA).getD 0)
          ((alookup (runResult runTie).balance_lookup (strLower addrA)).getD 0)) =
          (((alookup (runResult runTie).balance_lookup (strLower addrA)).getD 0 : ℚ) /
              10 ^ DECIMALS) /
            (((alookup (runResult runTie).received addrA).getD 0 : ℚ) / 10 ^ DECIMALS) * 100) :=
  c4_percent_guard provTieDisplay ["0xt1"] false TOKEN_CONTRACT [] 3
    (runResult runTie) (by rfl) addrA (by decide)

theorem buildReceivedGo_api (prov : Provider) (token : String) :
    ∀ (txs : List String) (received : List (String × ℕ)) (api req : ℕ)
    (r : List (String × ℕ)) (a q : ℕ),
    buildReceivedGo prov token txs received api req = .ok (r, a, q) →
    a = api + txs.length := by
  intro txs
  induction txs with
  | nil =>
    intro received api req r a q h
    simp only [buildReceivedGo, Except.ok.injEq, Prod.mk.injEq] at h
    simp only [List.length_nil]
    omega
  | cons tx rest ih =>
    intro received api req r a q h
    rw [buildReceivedGo] at h
    cases hv : (fetch_transaction_receipt (prov.receiptResp tx)).val with
    | none =>
      simp only [hv] at h
      exact absurd h (by simp)
    | some rc =>
      simp only [hv] at h
      cases hp : parse_transfers_from_receipt rc token with
      | error e =>
        simp only [hp] at h
        exact absurd h (by simp)
      | ok transfers =>
        simp only [hp] at h
        have := ih _ _ _ r a q h
        simp only [List.length_cons]
        omega

/-- C8 (amended): the `api_calls` counter returned by `fetch_airdrop_data` is
not a per-request count: it equals one per transaction hash (regardless of how
many retry attempts the receipt fetch made), plus one for the holder-count call
(again regardless of retries), plus the page estimate
`len(all_holders) // 10000 + 1` for the holder list; the requests made by the
activity phase's transfer-history pagination are not counted at all. -/
theorem c8_api_calls_estimate (prov : Provider) (txs : List String) (tm : Bool)
    (token : String) (cfg : List (String × ContractCfg)) (fuel : ℕ) (res : RunResult)
    (h : fetch_airdrop_data prov txs tm token cfg fuel = .ok res) :
    res.api_calls = txs.length + 1 + (res.holders_fetched / 10000 + 1) := by
  obtain ⟨received, apiR, reqR, hb, hrec, haddr, hbal, hcats, hrows, hsort, hhf, hapi, hreq,
    hnf⟩ := fetch_airdrop_data_ok prov txs tm token cfg fuel res h
  have ha : apiR = 0 + txs.length := buildReceivedGo_api prov token txs [] 0 0 received apiR reqR hb
  rw [hapi, ha]
  omega

/-- The activity configuration of the counter counterexample: one valid
contract. -/
def configC8 : List (String × ContractCfg) :=
  [("0xstake", ⟨"staking", ["increase_amount"]⟩)]

/-- A provider whose first receipt attempt is rate-limited (so the receipt
fetch issues two requests while `api_calls` counts one) and whose activity
phase issues one transfer-history request (counted nowhere). -/
def provCounter : Provider :=
  { receiptResp := fun _ att => if att = 0 then .rateLimited else .ok rcTwoTransfers,
    countResp := fun _ => .ok 2,
    holderPage := fun page => if page = 1 then .ok [⟨addrA, 5⟩] else .ok [],
    txPage := fun _ page =>
      if page = 1 then .ok [⟨addrA, "increase_amount(uint256)", 7⟩] else .noneFound }

/-- The concrete run of the counter counterexample. -/
def runCounter : Except RunError RunResult :=
  fetch_airdrop_data provCounter ["0xt1"] false TOKEN_CONTRACT configC8 3

/-- C8's counterexample: in the concrete run the pipeline issues five HTTP
requests (two receipt attempts, one holder-count, one holder page, one
transfer-history page) but reports `api_calls = 3` — the counter does not equal
the number of outbound requests actually issued. -/
theorem c8_counterexample :
    (runResult runCounter).api_calls = 3 ∧
    (runResult runCounter).requestsMade = 5 ∧
    ¬ ((runResult runCounter).api_calls = (runResult runCounter).requestsMade) := by
  refine ⟨by decide, by decide, by decide⟩

theorem c8_api_calls_estimate_witness :
    (runResult runCounter).api_calls =
      (["0xt1"] : List String).length + 1 + ((runResult runCounter).holders_fetched / 10000 + 1) :=
  c8_api_calls_estimate provCounter ["0xt1"] false TOKEN_CONTRACT configC8 3
    (runResult runCounter) (by rfl)
